import Mathlib

/-!
# chaos-aws: availability-zone network partition injection

A shallow embedding of `main.go`.  The program talks to EC2 through six SDK
operations; here the provider is an explicit state machine (`Provider σ`)
whose operations return a reply together with the next provider state.  A run
of `main` yields the sequence of provider calls, log records and sleeps it
performed (`Run.trace`), how the process ended (`Run.outcome`), the final
provider state and the values of the three local variables that carry the
recovery information.

Modelling conventions:

* SDK pointer fields that a successful reply always carries are plain values;
  `PortRange` of a rule request, which the SDK allows to be absent, is an
  `Option`.
* `time.Duration` is a signed 64-bit count of nanoseconds: an `Int`, with
  multiplication wrapped by `wrapInt64`.
* A Go `map[string]string` is a list of key/value pairs with distinct keys
  (`mapSet` overwrites an existing key).  `range` over a map visits the
  entries in an unspecified order: the order is a parameter (`RangeOrder`),
  constrained only to be a permutation of the entries.
* `logger.Fatal` ends the process: nothing after it is executed.
* The body of `main` is written as consecutive blocks, each named after the
  lines it covers: `main` (lines 32-105) continues with `createAndInject`
  (107-192), which continues with `installAndRecover` (156-192), `recover`
  (173-192) and `cleanup` (184-192).
* `cloud` is a model of the provider as a binding state, used where a claim
  speaks of what the provider does; `flaky` is the same provider with one
  refused rebind request.
-/

namespace ChaosAws

/-! ## EC2 shapes -/

/-- The part of `ec2.Subnet` that `main` reads. -/
structure Subnet where
  subnetId : String
deriving DecidableEq, Repr

/-- The shape `ec2.NetworkAclAssociation`. -/
structure NetworkAclAssociation where
  networkAclAssociationId : String
  networkAclId : String
  subnetId : String
deriving DecidableEq, Repr

/-- The part of `ec2.NetworkAcl` that `main` reads, with the ACL id. -/
structure NetworkAcl where
  networkAclId : String
  associations : List NetworkAclAssociation
deriving DecidableEq, Repr

/-- The shape `ec2.PortRange`. -/
structure PortRange where
  From : Int
  To : Int
deriving DecidableEq, Repr

/-- The fields of `ec2.CreateNetworkAclEntryInput` that `main` sets; a field
that the SDK leaves optional and `main` sets is present as `some`. -/
structure CreateNetworkAclEntryInput where
  cidrBlock : String
  egress : Bool
  networkAclId : String
  portRange : Option PortRange
  protocol : String
  ruleAction : String
  ruleNumber : Int
deriving DecidableEq, Repr

/-- Reply of a provider operation: the Go pair `(output, err)`. -/
inductive Reply (α : Type) where
  | ok (out : α)
  | error (err : String)
deriving DecidableEq, Repr

/-- The EC2 client as a state machine over provider states `σ`. -/
structure Provider (σ : Type) where
  describeSubnets : σ → String → String → Reply (List Subnet) × σ
  describeNetworkAcls : σ → String → String → Reply (List NetworkAcl) × σ
  createNetworkAcl : σ → String → Reply String × σ
  createNetworkAclEntry : σ → CreateNetworkAclEntryInput → Reply Unit × σ
  replaceNetworkAclAssociation : σ → String → String → Reply String × σ
  deleteNetworkAcl : σ → String → Reply Unit × σ

/-! ## Observable behaviour -/

/-- A field of a structured log record. -/
inductive LogField where
  | str (key val : String)
  | subnets (key : String) (val : List Subnet)
  | assocMap (key : String) (val : List (String × String))
  | duration (key : String) (val : Int)
deriving DecidableEq, Repr

/-- One step of a run, in program order: a provider call with its arguments
and reply, a call of `time.Sleep` with its argument in nanoseconds, or an
`Info` log record. -/
inductive Event where
  | describeSubnets (vpcID az : String) (reply : Reply (List Subnet))
  | describeNetworkAcls (vpcID subnetID : String) (reply : Reply (List NetworkAcl))
  | createNetworkAcl (vpcID : String) (reply : Reply String)
  | createNetworkAclEntry (input : CreateNetworkAclEntryInput) (reply : Reply Unit)
  | replaceNetworkAclAssociation (associationId networkAclId : String) (reply : Reply String)
  | deleteNetworkAcl (networkAclId : String) (reply : Reply Unit)
  | sleep (nanos : Int)
  | info (msg : String) (fields : List LogField)
deriving DecidableEq, Repr

/-- How the process ends: `main` returns, or `logger.Fatal` logs a message
(with the error, where one is given) and exits. -/
inductive Outcome where
  | returned
  | fatal (msg : String) (err : Option String)
deriving DecidableEq, Repr

/-! ## Configuration -/

/-- The command line as the `flag` package sees it: each flag is absent or
carries a value already converted to the type of its variable, and the
environment variable `AWS_REGION`. -/
structure Invocation where
  awsRegionEnv : String
  region : Option String
  vpc : Option String
  az : Option String
  duration : Option Int
deriving DecidableEq, Repr

/-- The package-level variables after `flag.Parse()`. -/
structure Config where
  vpcID : String
  availabilityZone : String
  region : String
  duration : Int
deriving DecidableEq, Repr

/-- Go constant `time.Second`, in nanoseconds. -/
def second : Int := 1000000000

/-- Default registered by `init` for `-duration`: `time.Duration(60)`. -/
def defaultDuration : Int := 60

/-- The flags registered by `init` (lines 26-29) applied to an invocation. -/
def flagParse (inv : Invocation) : Config :=
  { vpcID := inv.vpc.getD ""
    availabilityZone := inv.az.getD ""
    region := inv.region.getD inv.awsRegionEnv
    duration := inv.duration.getD defaultDuration }

/-- Two's-complement wrap-around of a signed 64-bit integer. -/
def wrapInt64 (x : Int) : Int := (x + 2 ^ 63) % 2 ^ 64 - 2 ^ 63

/-- The argument of `time.Sleep` on line 172: `duration * time.Second`. -/
def sleepArg (duration : Int) : Int := wrapInt64 (duration * second)

/-! ## Go maps -/

/-- A `map[string]string`: entries with distinct keys. -/
abbrev GoMap := List (String × String)

/-- Assignment `m[k] = v`. -/
def mapSet : GoMap → String → String → GoMap
  | [], k, v => [(k, v)]
  | (k', v') :: rest, k, v =>
    if k' = k then (k, v) :: rest else (k', v') :: mapSet rest k v

/-- The keys of a map. -/
def mapKeys (m : GoMap) : List String := m.map Prod.fst

/-- An iteration order of `range` over a map. -/
structure RangeOrder where
  order : GoMap → GoMap
  perm : ∀ m, (order m).Perm m

/-- The iteration orders of the two `range` loops over maps (lines 157, 174). -/
structure Schedule where
  install : RangeOrder
  restore : RangeOrder

/-- Iteration in insertion order. -/
def RangeOrder.insertion : RangeOrder := ⟨fun m => m, fun _ => List.Perm.refl _⟩

/-- Iteration in reverse insertion order. -/
def RangeOrder.reversed : RangeOrder := ⟨fun m => m.reverse, fun m => List.reverse_perm m⟩

/-! ## The program -/

/-- The result of a loop: what it did, the provider state it left, the map it
was building, and the error that stopped it, if any. -/
structure Stage (σ α : Type) where
  trace : List Event
  state : σ
  vars : α
  err : Option String

/-- Put one more event in front of a stage. -/
def Stage.after {σ α : Type} (e : Event) (st : Stage σ α) : Stage σ α :=
  { st with trace := e :: st.trace }

/-- Lines 98-104: record the associations of the replies that belong to the
subnet queried. -/
def recordAssociations (subnetID : String) (acls : List NetworkAcl) (m : GoMap) : GoMap :=
  acls.foldl (fun m acl =>
    acl.associations.foldl (fun m ass =>
      if ass.subnetId = subnetID then mapSet m ass.networkAclAssociationId ass.networkAclId
      else m) m) m

/-- Lines 73-105: the discovery loop over the subnets. -/
def discoverLoop {σ : Type} (P : Provider σ) (vpcID : String) :
    List Subnet → GoMap → σ → Stage σ GoMap
  | [], m, s => ⟨[], s, m, none⟩
  | subnet :: rest, m, s =>
    match P.describeNetworkAcls s vpcID subnet.subnetId with
    | (.error err, s') =>
      ⟨[.describeNetworkAcls vpcID subnet.subnetId (.error err)], s', m, some err⟩
    | (.ok acls, s') =>
      (discoverLoop P vpcID rest (recordAssociations subnet.subnetId acls m) s').after
        (.describeNetworkAcls vpcID subnet.subnetId (.ok acls))

/-- Lines 157-168: the installation loop over the entries of
`originAclAssociations`, in the order given. -/
def installLoop {σ : Type} (P : Provider σ) (aclID : String) :
    List (String × String) → GoMap → σ → Stage σ GoMap
  | [], m, s => ⟨[], s, m, none⟩
  | (assID, originAclID) :: rest, m, s =>
    match P.replaceNetworkAclAssociation s assID aclID with
    | (.error err, s') =>
      ⟨[.replaceNetworkAclAssociation assID aclID (.error err)], s', m, some err⟩
    | (.ok newAssociationId, s') =>
      (installLoop P aclID rest (mapSet m newAssociationId originAclID) s').after
        (.replaceNetworkAclAssociation assID aclID (.ok newAssociationId))

/-- Lines 174-182: the restoration loop over the entries of
`newAclAssociations`, in the order given; it builds nothing. -/
def restoreLoop {σ : Type} (P : Provider σ) :
    List (String × String) → σ → Stage σ Unit
  | [], s => ⟨[], s, (), none⟩
  | (newAssID, originAclID) :: rest, s =>
    match P.replaceNetworkAclAssociation s newAssID originAclID with
    | (.error err, s') =>
      ⟨[.replaceNetworkAclAssociation newAssID originAclID (.error err)], s', (), some err⟩
    | (.ok newer, s') =>
      (restoreLoop P rest s').after
        (.replaceNetworkAclAssociation newAssID originAclID (.ok newer))

/-- Lines 120-131: the egress rule request. -/
def engress (aclID : String) : CreateNetworkAclEntryInput :=
  { cidrBlock := "0.0.0.0/0"
    egress := true
    networkAclId := aclID
    portRange := some { From := 53, To := 53 }
    protocol := "-1"
    ruleAction := "deny"
    ruleNumber := 100 }

/-- Lines 138-149: the ingress rule request. -/
def ingress (aclID : String) : CreateNetworkAclEntryInput :=
  { cidrBlock := "0.0.0.0/0"
    egress := false
    networkAclId := aclID
    portRange := some { From := 53, To := 53 }
    protocol := "-1"
    ruleAction := "deny"
    ruleNumber := 101 }

/-- The local variables of `main` that carry the recovery information, as
they stand when the process ends. -/
structure Locals where
  originAclAssociations : GoMap
  aclID : Option String
  newAclAssociations : GoMap
deriving DecidableEq, Repr

/-- A complete run of the program. -/
structure Run (σ : Type) where
  trace : List Event
  outcome : Outcome
  final : σ
  locals : Locals

/-- Put the events of an earlier part of the run in front of a run. -/
def Run.after {σ : Type} (t : List Event) (r : Run σ) : Run σ :=
  { r with trace := t ++ r.trace }

/-- Lines 184-192 of `main`: the restoration loop is over, delete the
injected ACL. -/
def cleanup {σ : Type} (P : Provider σ) (aclID : String) (loc : Locals) (s : σ) : Run σ :=
  match P.deleteNetworkAcl s aclID with
  | (.error err, s') =>
    ⟨[.info "recovery acl associations successful" [], .deleteNetworkAcl aclID (.error err)],
      .fatal "DeleteNetworkAcl" (some err), s', loc⟩
  | (.ok _, s') =>
    ⟨[.info "recovery acl associations successful" [], .deleteNetworkAcl aclID (.ok ()),
        .info "recovery network acl successful" []],
      .returned, s', loc⟩

/-- Lines 173-192 of `main`: rebind every entry of `newAclAssociations` to its
original ACL, then clean up. -/
def recover {σ : Type} (P : Provider σ) (o : Schedule) (aclID : String) (loc : Locals)
    (s : σ) : Run σ :=
  let r := restoreLoop P (o.restore.order loc.newAclAssociations) s
  match r.err with
  | some err =>
    ⟨.info "start recovery error injection" [] :: r.trace,
      .fatal "ReplaceNetworkAclAssociation" (some err), r.state, loc⟩
  | none =>
    (cleanup P aclID loc r.state).after (.info "start recovery error injection" [] :: r.trace)

/-- Lines 156-192 of `main`: rebind every entry of `originAclAssociations` to
the injected ACL, sleep, then recover. -/
def installAndRecover {σ : Type} (P : Provider σ) (o : Schedule) (g : Config)
    (aclID : String) (origin : GoMap) (s : σ) : Run σ :=
  let i := installLoop P aclID (o.install.order origin) [] s
  match i.err with
  | some err =>
    ⟨i.trace, .fatal "ReplaceNetworkAclAssociation" (some err), i.state,
      ⟨origin, some aclID, i.vars⟩⟩
  | none =>
    (recover P o aclID ⟨origin, some aclID, i.vars⟩ i.state).after
      (i.trace ++
        [.info "inject availability zone network partition successful" [],
         .info "sleep" [.duration "durtion" g.duration],
         .sleep (sleepArg g.duration)])

/-- Lines 107-192 of `main`: discovery is over; create the ACL with its two
rules, then install and recover. -/
def createAndInject {σ : Type} (P : Provider σ) (o : Schedule) (g : Config)
    (origin : GoMap) (s : σ) : Run σ :=
  match P.createNetworkAcl s g.vpcID with
  | (.error err, s2) =>
    ⟨[.info "DescribeNetworkAclsResult" [.assocMap "originAclAssociations" origin],
        .createNetworkAcl g.vpcID (.error err)],
      .fatal "CreateNetworkAcl" (some err), s2, ⟨origin, none, []⟩⟩
  | (.ok aclID, s2) =>
    match P.createNetworkAclEntry s2 (engress aclID) with
    | (.error err, s3) =>
      ⟨[.info "DescribeNetworkAclsResult" [.assocMap "originAclAssociations" origin],
          .createNetworkAcl g.vpcID (.ok aclID),
          .info "CreateNetworkAclResult" [.str "aclID" aclID],
          .createNetworkAclEntry (engress aclID) (.error err)],
        .fatal "CreateNetworkAclEntry" (some err), s3, ⟨origin, some aclID, []⟩⟩
    | (.ok _, s3) =>
      match P.createNetworkAclEntry s3 (ingress aclID) with
      | (.error err, s4) =>
        ⟨[.info "DescribeNetworkAclsResult" [.assocMap "originAclAssociations" origin],
            .createNetworkAcl g.vpcID (.ok aclID),
            .info "CreateNetworkAclResult" [.str "aclID" aclID],
            .createNetworkAclEntry (engress aclID) (.ok ()),
            .createNetworkAclEntry (ingress aclID) (.error err)],
          .fatal "CreateNetworkAclEntry" (some err), s4, ⟨origin, some aclID, []⟩⟩
      | (.ok _, s4) =>
        (installAndRecover P o g aclID origin s4).after
          [.info "DescribeNetworkAclsResult" [.assocMap "originAclAssociations" origin],
           .createNetworkAcl g.vpcID (.ok aclID),
           .info "CreateNetworkAclResult" [.str "aclID" aclID],
           .createNetworkAclEntry (engress aclID) (.ok ()),
           .createNetworkAclEntry (ingress aclID) (.ok ())]

/-- Lines 32-193: `main`, run against provider `P` from provider state `s0`,
with the map iteration orders `o`. -/
def main {σ : Type} (P : Provider σ) (o : Schedule) (inv : Invocation) (s0 : σ) : Run σ :=
  let g := flagParse inv
  if g.vpcID = "" ∨ g.availabilityZone = "" then
    ⟨[], .fatal "must specipy vpcID and availabilityZone" none, s0, ⟨[], none, []⟩⟩
  else
    match P.describeSubnets s0 g.vpcID g.availabilityZone with
    | (.error err, s1) =>
      ⟨[.describeSubnets g.vpcID g.availabilityZone (.error err)],
        .fatal "DescribeSubnets" (some err), s1, ⟨[], none, []⟩⟩
    | (.ok subnets, s1) =>
      if subnets.length = 0 then
        ⟨[.describeSubnets g.vpcID g.availabilityZone (.ok subnets),
          .info "no subnets in vpc"
            [.str "vpcID" g.vpcID, .str "availabilityZoneName" g.availabilityZone]],
          .returned, s1, ⟨[], none, []⟩⟩
      else
        let d := discoverLoop P g.vpcID subnets [] s1
        match d.err with
        | some err =>
          ⟨[.describeSubnets g.vpcID g.availabilityZone (.ok subnets),
              .info "DescribeSubnetsResult" [.subnets "Subnets" subnets]] ++ d.trace,
            .fatal "DescribeNetworkAcls" (some err), d.state, ⟨d.vars, none, []⟩⟩
        | none =>
          (createAndInject P o g d.vars d.state).after
            ([.describeSubnets g.vpcID g.availabilityZone (.ok subnets),
              .info "DescribeSubnetsResult" [.subnets "Subnets" subnets]] ++ d.trace)

/-! ## A model of the provider: binding state -/

/-- The network state of the provider.  Every subnet, ACL, rule and
association is listed with the identifiers it refers to; `retired` holds the
identifiers issued earlier that are no longer valid. -/
structure Cloud where
  subnets : List (String × String × String)
  acls : List (String × String)
  entries : List CreateNetworkAclEntryInput
  associations : List NetworkAclAssociation
  retired : List String
deriving DecidableEq, Repr

/-- Every identifier the provider has issued or refers to. -/
def Cloud.names (c : Cloud) : List String :=
  c.subnets.map (fun s => s.1) ++ c.acls.map Prod.fst ++
    c.entries.map (fun e => e.networkAclId) ++
    c.associations.map (fun r => r.networkAclAssociationId) ++
    c.associations.map (fun r => r.networkAclId) ++
    c.associations.map (fun r => r.subnetId) ++ c.retired

/-- An identifier different from all those in `used`: longer than each. -/
def freshId (used : List String) : String :=
  String.mk (List.replicate ((used.map String.length).foldr max 0 + 1) 'x')

/-- The subnets of a VPC in a zone. -/
def Cloud.subnetsIn (c : Cloud) (vpcID az : String) : List Subnet :=
  (c.subnets.filter (fun s => s.2.1 = vpcID ∧ s.2.2 = az)).map (fun s => ⟨s.1⟩)

/-- The provider operation `DescribeSubnets` filtered by VPC and zone. -/
def Cloud.describeSubnets (c : Cloud) (vpcID az : String) : Reply (List Subnet) × Cloud :=
  (.ok (c.subnetsIn vpcID az), c)

/-- The ACLs of a VPC that have an association to the subnet, each with all
of its associations. -/
def Cloud.aclsOf (c : Cloud) (vpcID subnetID : String) : List NetworkAcl :=
  (c.acls.filter (fun a => a.2 = vpcID ∧
      c.associations.any (fun r => r.networkAclId = a.1 ∧ r.subnetId = subnetID))).map
    (fun a => ⟨a.1, c.associations.filter (fun r => r.networkAclId = a.1)⟩)

/-- The provider operation `DescribeNetworkAcls` filtered by VPC and by
`association.subnet-id`. -/
def Cloud.describeNetworkAcls (c : Cloud) (vpcID subnetID : String) :
    Reply (List NetworkAcl) × Cloud :=
  (.ok (c.aclsOf vpcID subnetID), c)

/-- The provider operation `CreateNetworkAcl`: a new ACL under a fresh id. -/
def Cloud.createNetworkAcl (c : Cloud) (vpcID : String) : Reply String × Cloud :=
  (.ok (freshId c.names), { c with acls := c.acls ++ [(freshId c.names, vpcID)] })

/-- The provider operation `CreateNetworkAclEntry`: add a rule to an existing ACL. -/
def Cloud.createNetworkAclEntry (c : Cloud) (input : CreateNetworkAclEntryInput) :
    Reply Unit × Cloud :=
  if input.networkAclId ∈ c.acls.map Prod.fst then
    (.ok (), { c with entries := c.entries ++ [input] })
  else (.error "InvalidNetworkAclID.NotFound", c)

/-- The provider operation `ReplaceNetworkAclAssociation`: the association is
invalidated and a fresh association binds the same subnet to the ACL given. -/
def Cloud.replaceNetworkAclAssociation (c : Cloud) (associationId aclID : String) :
    Reply String × Cloud :=
  if associationId ∈ c.associations.map (fun r => r.networkAclAssociationId) then
    (.ok (freshId c.names),
      { c with
        associations := c.associations.map (fun r =>
          if r.networkAclAssociationId = associationId then
            { networkAclAssociationId := freshId c.names
              networkAclId := aclID
              subnetId := r.subnetId }
          else r)
        retired := associationId :: c.retired })
  else (.error "InvalidAssociationID.NotFound", c)

/-- The provider operation `DeleteNetworkAcl`: allowed for an existing ACL
that no association refers to. -/
def Cloud.deleteNetworkAcl (c : Cloud) (aclID : String) : Reply Unit × Cloud :=
  if aclID ∈ c.acls.map Prod.fst then
    if c.associations.all (fun r => r.networkAclId ≠ aclID) then
      (.ok (),
        { c with
          acls := c.acls.filter (fun a => a.1 ≠ aclID)
          entries := c.entries.filter (fun e => e.networkAclId ≠ aclID)
          retired := aclID :: c.retired })
    else (.error "DependencyViolation", c)
  else (.error "InvalidNetworkAclID.NotFound", c)

/-- The binding-state provider. -/
def cloud : Provider Cloud :=
  { describeSubnets := Cloud.describeSubnets
    describeNetworkAcls := Cloud.describeNetworkAcls
    createNetworkAcl := Cloud.createNetworkAcl
    createNetworkAclEntry := Cloud.createNetworkAclEntry
    replaceNetworkAclAssociation := Cloud.replaceNetworkAclAssociation
    deleteNetworkAcl := Cloud.deleteNetworkAcl }

/-- The scenario of the specification: VPC `v1`, zone `az-1`, subnets `s1`
and `s2` bound to `acl-orig` through `a1` and `a2`. -/
def scenario : Cloud :=
  { subnets := [("s1", "v1", "az-1"), ("s2", "v1", "az-1")]
    acls := [("acl-orig", "v1")]
    entries := []
    associations := [⟨"a1", "acl-orig", "s1"⟩, ⟨"a2", "acl-orig", "s2"⟩]
    retired := [] }

/-- Invocation `-vpc v1 -az az-1 -duration d`. -/
def invoke (d : Option Int) : Invocation :=
  { awsRegionEnv := "", region := none, vpc := some "v1", az := some "az-1", duration := d }

/-- Both loops iterate in insertion order. -/
def inOrder : Schedule := ⟨RangeOrder.insertion, RangeOrder.insertion⟩

/-- Schedule with the installation loop in reverse insertion order. -/
def installReversed : Schedule := ⟨RangeOrder.reversed, RangeOrder.insertion⟩

/-- A variant of the scenario with one ACL per subnet: `s1` bound to `acl-a`
through `a1`, `s2` bound to `acl-b` through `a2`. -/
def twoAcls : Cloud :=
  { subnets := [("s1", "v1", "az-1"), ("s2", "v1", "az-1")]
    acls := [("acl-a", "v1"), ("acl-b", "v1")]
    entries := []
    associations := [⟨"a1", "acl-a", "s1"⟩, ⟨"a2", "acl-b", "s2"⟩]
    retired := [] }

/-- The binding-state provider with one injected fault.  The state carries a
countdown: the `ReplaceNetworkAclAssociation` request that finds it at zero is
refused with `RequestLimitExceeded` and changes nothing; every other request
is served by `cloud`. -/
def flaky : Provider (Cloud × Option Nat) :=
  { describeSubnets := fun s v z => ((cloud.describeSubnets s.1 v z).1, s)
    describeNetworkAcls := fun s v n => ((cloud.describeNetworkAcls s.1 v n).1, s)
    createNetworkAcl := fun s v =>
      ((cloud.createNetworkAcl s.1 v).1, ((cloud.createNetworkAcl s.1 v).2, s.2))
    createNetworkAclEntry := fun s i =>
      ((cloud.createNetworkAclEntry s.1 i).1, ((cloud.createNetworkAclEntry s.1 i).2, s.2))
    replaceNetworkAclAssociation := fun s a acl =>
      match s.2 with
      | some 0 => (.error "RequestLimitExceeded", (s.1, none))
      | some (k + 1) =>
        ((cloud.replaceNetworkAclAssociation s.1 a acl).1,
          ((cloud.replaceNetworkAclAssociation s.1 a acl).2, some k))
      | none =>
        ((cloud.replaceNetworkAclAssociation s.1 a acl).1,
          ((cloud.replaceNetworkAclAssociation s.1 a acl).2, none))
    deleteNetworkAcl := fun s acl =>
      ((cloud.deleteNetworkAcl s.1 acl).1, ((cloud.deleteNetworkAcl s.1 acl).2, s.2)) }

/-! ## Reading a trace -/

/-- Whether a reply carries no error. -/
def Reply.isOk {α : Type} : Reply α → Bool
  | .ok _ => true
  | .error _ => false

/-- Whether the event is the call of `time.Sleep`. -/
def Event.isSleep : Event → Bool
  | .sleep _ => true
  | _ => false

/-- Whether the event is a log record. -/
def Event.isInfo : Event → Bool
  | .info _ _ => true
  | _ => false

/-- Whether the event is a provider call. -/
def Event.isCall (e : Event) : Bool := !e.isSleep && !e.isInfo

/-- Whether the event is a provider call that changes the provider state. -/
def Event.isMutation : Event → Bool
  | .createNetworkAcl _ _ => true
  | .createNetworkAclEntry _ _ => true
  | .replaceNetworkAclAssociation _ _ _ => true
  | .deleteNetworkAcl _ _ => true
  | _ => false

/-- Whether the event is a provider call that failed. -/
def Event.failed : Event → Bool
  | .describeSubnets _ _ r => !r.isOk
  | .describeNetworkAcls _ _ r => !r.isOk
  | .createNetworkAcl _ r => !r.isOk
  | .createNetworkAclEntry _ r => !r.isOk
  | .replaceNetworkAclAssociation _ _ r => !r.isOk
  | .deleteNetworkAcl _ r => !r.isOk
  | _ => false

/-- The `ReplaceNetworkAclAssociation` call of an event: association id
passed, ACL id passed, reply. -/
def Event.rebind : Event → Option (String × String × Reply String)
  | .replaceNetworkAclAssociation a acl r => some (a, acl, r)
  | _ => none

/-- The `ReplaceNetworkAclAssociation` calls of a trace, in order. -/
def rebinds (t : List Event) : List (String × String × Reply String) :=
  t.filterMap Event.rebind

/-- The `CreateNetworkAclEntry` call of an event. -/
def Event.entryCall : Event → Option (CreateNetworkAclEntryInput × Reply Unit)
  | .createNetworkAclEntry i r => some (i, r)
  | _ => none

/-- The `CreateNetworkAclEntry` calls of a trace, in order. -/
def entryCalls (t : List Event) : List (CreateNetworkAclEntryInput × Reply Unit) :=
  t.filterMap Event.entryCall

/-- The `DeleteNetworkAcl` call of an event. -/
def Event.deletion : Event → Option (String × Reply Unit)
  | .deleteNetworkAcl acl r => some (acl, r)
  | _ => none

/-- The `DeleteNetworkAcl` calls of a trace, in order. -/
def deletions (t : List Event) : List (String × Reply Unit) :=
  t.filterMap Event.deletion

/-- The arguments of the `time.Sleep` calls of a trace, in order. -/
def sleeps (t : List Event) : List Int :=
  t.filterMap (fun e => match e with
    | .sleep d => some d
    | _ => none)

/-- The part of a trace before the first call of `time.Sleep`: discovery,
creation of the ACL and installation. -/
def beforeSleep (t : List Event) : List Event :=
  t.takeWhile (fun e => !e.isSleep)

/-- The part of a trace after the first call of `time.Sleep`: restoration
and clean-up. -/
def afterSleep (t : List Event) : List Event :=
  (t.dropWhile (fun e => !e.isSleep)).drop 1

/-- What a run reports: its log records and the way it ended. -/
def report {σ : Type} (r : Run σ) : List Event × Outcome :=
  (r.trace.filter Event.isInfo, r.outcome)

/-- The events of successful installation rebinds of the entries `es` to the
ACL `aclID`, answered by the new association ids `news`. -/
def installEvents (aclID : String) (es : List (String × String)) (news : List String) :
    List Event :=
  List.zipWith (fun e n => Event.replaceNetworkAclAssociation e.1 aclID (.ok n)) es news

/-- The events of successful restoration rebinds of the entries `es`, answered
by the association ids `news`. -/
def restoreEvents (es : List (String × String)) (news : List String) : List Event :=
  List.zipWith (fun e n => Event.replaceNetworkAclAssociation e.1 e.2 (.ok n)) es news

/-- The map `m` after recording, for the entries `es` rebound in turn with
answers `news`, each new association id with the original ACL id of its entry. -/
def recorded (m : GoMap) (es : List (String × String)) (news : List String) : GoMap :=
  (List.zip news (es.map Prod.snd)).foldl (fun m p => mapSet m p.1 p.2) m

/-- The failed rebind of association `a` to ACL `acl`. -/
def failedRebind (a acl err : String) : Event :=
  .replaceNetworkAclAssociation a acl (.error err)

/-- The events between a successful discovery and the installation loop
(lines 107-154), when the ACL and both rules are created. -/
def ruleEvents (g : Config) (origin : GoMap) (aclID : String) : List Event :=
  [.info "DescribeNetworkAclsResult" [.assocMap "originAclAssociations" origin],
   .createNetworkAcl g.vpcID (.ok aclID),
   .info "CreateNetworkAclResult" [.str "aclID" aclID],
   .createNetworkAclEntry (engress aclID) (.ok ()),
   .createNetworkAclEntry (ingress aclID) (.ok ())]

/-- The events between the installation loop and the restoration loop
(lines 170-173). -/
def holdEvents (g : Config) : List Event :=
  [.info "inject availability zone network partition successful" [],
   .info "sleep" [.duration "durtion" g.duration],
   .sleep (sleepArg g.duration),
   .info "start recovery error injection" []]

/-- The events after a restoration loop without failure (lines 184-192),
given the reply to `DeleteNetworkAcl`. -/
def cleanupEvents (aclID : String) : Reply Unit → List Event
  | .ok _ =>
    [.info "recovery acl associations successful" [], .deleteNetworkAcl aclID (.ok ()),
      .info "recovery network acl successful" []]
  | .error err =>
    [.info "recovery acl associations successful" [], .deleteNetworkAcl aclID (.error err)]

/-- The way the run ends after the reply to `DeleteNetworkAcl`. -/
def cleanupOutcome : Reply Unit → Outcome
  | .ok _ => .returned
  | .error err => .fatal "DeleteNetworkAcl" (some err)

/-- The events up to the installation loop (lines 42-154) of a run that
reaches it: `dtrace` holds the events of the discovery loop. -/
def preamble (g : Config) (subnets : List Subnet) (dtrace : List Event) (origin : GoMap)
    (aclID : String) : List Event :=
  .describeSubnets g.vpcID g.availabilityZone (.ok subnets) ::
    .info "DescribeSubnetsResult" [.subnets "Subnets" subnets] ::
    (dtrace ++ ruleEvents g origin aclID)

/-- The map `m` after recording the associations `l` in turn. -/
def checkpoint (m : GoMap) (l : List NetworkAclAssociation) : GoMap :=
  l.foldl (fun m ass => mapSet m ass.networkAclAssociationId ass.networkAclId) m

/-- Whether the event is a `DescribeNetworkAcls` call. -/
def Event.isDescribeAcls : Event → Bool
  | .describeNetworkAcls _ _ _ => true
  | _ => false

/-- The `CreateNetworkAcl` call of an event: VPC id passed, reply. -/
def Event.creation : Event → Option (String × Reply String)
  | .createNetworkAcl v r => some (v, r)
  | _ => none

/-- The `CreateNetworkAcl` calls of a trace, in order. -/
def creations (t : List Event) : List (String × Reply String) :=
  t.filterMap Event.creation

/-- Events other than a rebind, a deletion or a sleep. -/
def Event.isQuiet : Event → Bool
  | .replaceNetworkAclAssociation _ _ _ => false
  | .deleteNetworkAcl _ _ => false
  | .sleep _ => false
  | _ => true

/-- The associations in the reply of a `DescribeNetworkAcls` call that belong
to the subnet the call asked about. -/
def Event.matching : Event → List NetworkAclAssociation
  | .describeNetworkAcls _ subnetID (.ok acls) =>
    (acls.flatMap (fun acl => acl.associations)).filter (fun ass => ass.subnetId = subnetID)
  | _ => []

/-- The associations of the subnets queried, over a whole trace. -/
def discovered (t : List Event) : List NetworkAclAssociation :=
  t.flatMap Event.matching

/-- The subnet ids asked about in the `DescribeNetworkAcls` calls of a trace. -/
def queried (t : List Event) : List String :=
  t.filterMap (fun e => match e with
    | .describeNetworkAcls _ subnetID _ => some subnetID
    | _ => none)

/-- Association ids the provider has issued in an event: those listed in a
`DescribeNetworkAcls` reply and the one returned by a rebind. -/
def Event.issued : Event → List String
  | .describeNetworkAcls _ _ (.ok acls) =>
    (acls.flatMap (fun acl => acl.associations)).map (fun ass => ass.networkAclAssociationId)
  | .replaceNetworkAclAssociation _ _ (.ok n) => [n]
  | _ => []

/-- If the event is a successful rebind, the association id it returns is
not among `seen`. -/
def Event.freshIn (seen : List String) : Event → Prop
  | .replaceNetworkAclAssociation _ _ (.ok n) => n ∉ seen
  | _ => True

/-- Every successful rebind of the trace returns an association id that the
provider has not issued before (`seen` holds the ids issued before the trace). -/
def freshRebinds : List String → List Event → Prop
  | _, [] => True
  | seen, e :: t => e.freshIn seen ∧ freshRebinds (seen ++ e.issued) t

instance Event.decidableFreshIn (seen : List String) (e : Event) :
    Decidable (e.freshIn seen) := by
  unfold Event.freshIn
  split <;> infer_instance

instance decidableFreshRebinds : (seen : List String) → (t : List Event) →
    Decidable (freshRebinds seen t)
  | _, [] => isTrue trivial
  | seen, e :: t =>
    have := decidableFreshRebinds (seen ++ e.issued) t
    inferInstanceAs (Decidable (e.freshIn seen ∧ freshRebinds (seen ++ e.issued) t))

/-- The pair (subnet, ACL) that an association binds. -/
def binding (r : NetworkAclAssociation) : String × String := (r.subnetId, r.networkAclId)

/-- Subnet `subnet` is bound to ACL `acl` in provider state `c`. -/
def Cloud.Bound (c : Cloud) (subnet acl : String) : Prop :=
  ∃ r ∈ c.associations, r.subnetId = subnet ∧ r.networkAclId = acl

/-- Association `r` of the current provider state stands for association `r0`
of the initial state, given the recovery map `m`: it binds the same subnet,
and the ACL of `r0` is the one recorded in `m` under the id of `r` or, when
`m` has no entry for that id, the ACL that `r` is bound to. -/
def Tracks (m : GoMap) (r0 r : NetworkAclAssociation) : Prop :=
  r.subnetId = r0.subnetId ∧
    ((r.networkAclAssociationId, r0.networkAclId) ∈ m ∨
      (r.networkAclAssociationId ∉ mapKeys m ∧ r.networkAclId = r0.networkAclId))

/-- The association ids of a provider state. -/
def Cloud.ids (c : Cloud) : List String :=
  c.associations.map (fun r => r.networkAclAssociationId)

/-- Association ids identify associations. -/
def Cloud.WellFormed (c : Cloud) : Prop :=
  (c.associations.map (fun r => r.networkAclAssociationId)).Nodup

/-! ## What a rule of a network ACL matches

EC2 evaluates a rule of a network ACL against a packet by the rule's CIDR
block, protocol and port range.  Protocol `-1` stands for all protocols, and
the port range of a rule is taken into account for TCP (6) and UDP (17) only:
for `-1` and for every other protocol number the rule applies to all ports,
whatever port range the request that created it carried. -/

/-- A packet as a rule sees it: the IPv4 address of the peer as a number, the
IP protocol number and the destination port. -/
structure Packet where
  address : Nat
  protocol : Nat
  port : Int
deriving DecidableEq, Repr

/-- The number written by decimal digits; `none` for anything else. -/
def decimal (cs : List Char) : Option Nat :=
  if cs = [] then none
  else cs.foldl (fun acc c =>
    acc.bind (fun n => if c.isDigit then some (10 * n + (c.toNat - 48)) else none)) (some 0)

/-- The fields of a text separated by `sep`. -/
def fields (sep : Char) : List Char → List (List Char)
  | [] => [[]]
  | c :: cs =>
    if c = sep then [] :: fields sep cs
    else
      match fields sep cs with
      | [] => [[c]]
      | w :: ws => (c :: w) :: ws

/-- An IPv4 CIDR block `a.b.c.d/n` as its base address and number of leading
bits. -/
def parseCidr (s : String) : Option (Nat × Nat) :=
  match fields '/' s.data with
  | [addr, bits] =>
    match (fields '.' addr).map decimal, decimal bits with
    | [some a, some b, some c, some d], some n =>
      if a < 256 ∧ b < 256 ∧ c < 256 ∧ d < 256 ∧ n ≤ 32 then
        some (((a * 256 + b) * 256 + c) * 256 + d, n)
      else none
    | _, _ => none
  | _ => none

/-- Whether an address lies in a CIDR block: it agrees with the base address
on the leading bits. -/
def inCidr (s : String) (address : Nat) : Bool :=
  match parseCidr s with
  | some (base, n) => decide ((address % 2 ^ 32) / 2 ^ (32 - n) = base / 2 ^ (32 - n))
  | none => false

/-- Whether the rule created by a request applies to a packet, whatever its
direction and action: the address lies in the CIDR block, the protocol is the
rule's or the rule is for all protocols (`-1`), and, for a TCP or UDP rule
only, the port lies in the port range when the rule has one. -/
def CreateNetworkAclEntryInput.covers (e : CreateNetworkAclEntryInput) (p : Packet) : Bool :=
  inCidr e.cidrBlock p.address &&
    (decide (e.protocol = "-1") || decide (decimal e.protocol.data = some p.protocol)) &&
    (if e.protocol = "6" ∨ e.protocol = "17" then
      match e.portRange with
      | some r => decide (r.From ≤ p.port ∧ p.port ≤ r.To)
      | none => true
    else true)

/-! ## Theorems -/

/-- C2 (empty-scope no-op): with a VPC id and a zone given, when
`DescribeSubnets` succeeds with no subnet the run consists of that one call
and one log record, so it issues no other provider call and does not sleep,
and `main` returns normally, leaving the provider state as `DescribeSubnets`
left it. -/
theorem empty_scope_noop {σ : Type} (P : Provider σ) (o : Schedule) (inv : Invocation)
    (s s1 : σ) (hv : (flagParse inv).vpcID ≠ "") (ha : (flagParse inv).availabilityZone ≠ "")
    (h : P.describeSubnets s (flagParse inv).vpcID (flagParse inv).availabilityZone
      = (Reply.ok [], s1)) :
    (main P o inv s).trace =
        [Event.describeSubnets (flagParse inv).vpcID (flagParse inv).availabilityZone (.ok []),
         Event.info "no subnets in vpc"
           [.str "vpcID" (flagParse inv).vpcID,
            .str "availabilityZoneName" (flagParse inv).availabilityZone]] ∧
      (∀ e ∈ (main P o inv s).trace, e.isMutation = false ∧ e.isSleep = false ∧
        ∀ v n r, e ≠ Event.describeNetworkAcls v n r) ∧
      (main P o inv s).outcome = Outcome.returned ∧
      (main P o inv s).final = s1 := by
  have hmain : main P o inv s =
      ⟨[Event.describeSubnets (flagParse inv).vpcID (flagParse inv).availabilityZone (.ok []),
         Event.info "no subnets in vpc"
           [.str "vpcID" (flagParse inv).vpcID,
            .str "availabilityZoneName" (flagParse inv).availabilityZone]],
        Outcome.returned, s1, ⟨[], none, []⟩⟩ := by
    simp [main, hv, ha, h]
  rw [hmain]
  refine ⟨rfl, ?_, rfl, rfl⟩
  intro e he
  simp only [List.mem_cons, List.mem_singleton, List.not_mem_nil, or_false] at he
  rcases he with rfl | rfl <;> simp [Event.isMutation, Event.isSleep]

/-- Witness for C2: the scenario queried for zone `az-2`, where it has no subnet. -/
theorem empty_scope_noop_witness :
    (main cloud inOrder { invoke none with az := some "az-2" } scenario).trace =
        [Event.describeSubnets "v1" "az-2" (.ok []),
         Event.info "no subnets in vpc"
           [.str "vpcID" "v1", .str "availabilityZoneName" "az-2"]] ∧
      (∀ e ∈ (main cloud inOrder { invoke none with az := some "az-2" } scenario).trace,
        e.isMutation = false ∧ e.isSleep = false ∧
        ∀ v n r, e ≠ Event.describeNetworkAcls v n r) ∧
      (main cloud inOrder { invoke none with az := some "az-2" } scenario).outcome
        = Outcome.returned ∧
      (main cloud inOrder { invoke none with az := some "az-2" } scenario).final = scenario :=
  empty_scope_noop cloud inOrder { invoke none with az := some "az-2" } scenario scenario
    (by decide) (by decide) (by decide)

/-- C10, as the code has it: when the VPC id or the zone name is empty the
run ends in `logger.Fatal` before any provider call, log record or sleep, and
the provider state is untouched. -/
theorem missing_scope_is_fatal {σ : Type} (P : Provider σ) (o : Schedule) (inv : Invocation)
    (s : σ) (h : (flagParse inv).vpcID = "" ∨ (flagParse inv).availabilityZone = "") :
    (main P o inv s).trace = [] ∧
      (main P o inv s).outcome = Outcome.fatal "must specipy vpcID and availabilityZone" none ∧
      (main P o inv s).final = s := by
  simp [main, h]

/-- Witness for the amended C10: no `-vpc` flag. -/
theorem missing_scope_is_fatal_witness :
    (main cloud inOrder { invoke none with vpc := none } scenario).trace = [] ∧
      (main cloud inOrder { invoke none with vpc := none } scenario).outcome
        = Outcome.fatal "must specipy vpcID and availabilityZone" none ∧
      (main cloud inOrder { invoke none with vpc := none } scenario).final = scenario :=
  missing_scope_is_fatal cloud inOrder { invoke none with vpc := none } scenario
    (Or.inl (by decide))

set_option maxRecDepth 100000 in
/-- C10 fails for a negative duration: with `-duration -1ns` on the scenario
the run is not stopped before the provider is called; it discovers, installs,
sleeps a negative time, restores and returns normally. -/
theorem negative_duration_not_rejected :
    (flagParse (invoke (some (-1)))).duration < 0 ∧
      (main cloud inOrder (invoke (some (-1))) scenario).trace.head? =
        some (Event.describeSubnets "v1" "az-1" (.ok [⟨"s1"⟩, ⟨"s2"⟩])) ∧
      (rebinds (main cloud inOrder (invoke (some (-1))) scenario).trace).length = 4 ∧
      sleeps (main cloud inOrder (invoke (some (-1))) scenario).trace = [-1000000000] ∧
      (main cloud inOrder (invoke (some (-1))) scenario).outcome = Outcome.returned := by
  decide


/-! ### The loops -/

theorem discoverLoop_events {σ : Type} (P : Provider σ) (vpcID : String) :
    ∀ (subnets : List Subnet) (m : GoMap) (s : σ),
      ∀ e ∈ (discoverLoop P vpcID subnets m s).trace,
        ∃ n r, e = Event.describeNetworkAcls vpcID n r := by
  intro subnets
  induction subnets with
  | nil => intro m s e he; simp [discoverLoop] at he
  | cons sn rest ih =>
    intro m s e he
    unfold discoverLoop at he
    split at he
    · simp only [List.mem_singleton] at he
      exact ⟨_, _, he⟩
    · simp only [Stage.after, List.mem_cons] at he
      rcases he with rfl | he
      · exact ⟨_, _, rfl⟩
      · exact ih _ _ e he

theorem installLoop_anatomy {σ : Type} (P : Provider σ) (aclID : String) :
    ∀ (es : List (String × String)) (m : GoMap) (s : σ),
      (∃ news : List String, news.length = es.length ∧
        (installLoop P aclID es m s).err = none ∧
        (installLoop P aclID es m s).trace = installEvents aclID es news ∧
        (installLoop P aclID es m s).vars = recorded m es news) ∨
      (∃ (done : List (String × String)) (a x : String) (rest : List (String × String))
          (news : List String) (err : String),
        es = done ++ (a, x) :: rest ∧ news.length = done.length ∧
        (installLoop P aclID es m s).err = some err ∧
        (installLoop P aclID es m s).trace = installEvents aclID done news ++
          [Event.replaceNetworkAclAssociation a aclID (.error err)] ∧
        (installLoop P aclID es m s).vars = recorded m done news) := by
  intro es
  induction es with
  | nil =>
    intro m s
    exact Or.inl ⟨[], rfl, rfl, rfl, rfl⟩
  | cons p rest ih =>
    obtain ⟨a, x⟩ := p
    intro m s
    unfold installLoop
    split
    · rename_i err s' _
      exact Or.inr ⟨[], a, x, rest, [], err, rfl, rfl, rfl, rfl, rfl⟩
    · rename_i n s' _
      rcases ih (mapSet m n x) s' with ⟨news, hl, he, ht, hv⟩ |
        ⟨done, b, y, rest', news, err, hes, hl, he, ht, hv⟩
      · refine Or.inl ⟨n :: news, by simp [hl], he, ?_, ?_⟩
        · simp [Stage.after, ht, installEvents]
        · simp [Stage.after, hv, recorded]
      · refine Or.inr ⟨(a, x) :: done, b, y, rest', n :: news, err, by simp [hes], by simp [hl],
          he, ?_, ?_⟩
        · simp [Stage.after, ht, installEvents]
        · simp [Stage.after, hv, recorded]

theorem restoreLoop_anatomy {σ : Type} (P : Provider σ) :
    ∀ (es : List (String × String)) (s : σ),
      (∃ news : List String, news.length = es.length ∧
        (restoreLoop P es s).err = none ∧
        (restoreLoop P es s).trace = restoreEvents es news) ∨
      (∃ (done : List (String × String)) (a x : String) (rest : List (String × String))
          (news : List String) (err : String),
        es = done ++ (a, x) :: rest ∧ news.length = done.length ∧
        (restoreLoop P es s).err = some err ∧
        (restoreLoop P es s).trace = restoreEvents done news ++
          [Event.replaceNetworkAclAssociation a x (.error err)]) := by
  intro es
  induction es with
  | nil =>
    intro s
    exact Or.inl ⟨[], rfl, rfl, rfl⟩
  | cons p rest ih =>
    obtain ⟨a, x⟩ := p
    intro s
    unfold restoreLoop
    split
    · rename_i err s' _
      exact Or.inr ⟨[], a, x, rest, [], err, rfl, rfl, rfl, rfl⟩
    · rename_i n s' _
      rcases ih s' with ⟨news, hl, he, ht⟩ | ⟨done, b, y, rest', news, err, hes, hl, he, ht⟩
      · refine Or.inl ⟨n :: news, by simp [hl], he, ?_⟩
        simp [Stage.after, ht, restoreEvents]
      · refine Or.inr ⟨(a, x) :: done, b, y, rest', n :: news, err, by simp [hes], by simp [hl],
          he, ?_⟩
        simp [Stage.after, ht, restoreEvents]

/-! ### The blocks of `main` -/

theorem cleanup_anatomy {σ : Type} (P : Provider σ) (aclID : String) (loc : Locals) (s : σ) :
    ∃ reply : Reply Unit,
      (cleanup P aclID loc s).trace = cleanupEvents aclID reply ∧
      (cleanup P aclID loc s).outcome = cleanupOutcome reply ∧
      (cleanup P aclID loc s).locals = loc := by
  unfold cleanup
  split
  · rename_i err s' _
    exact ⟨.error err, rfl, rfl, rfl⟩
  · exact ⟨.ok (), rfl, rfl, rfl⟩

theorem recover_anatomy {σ : Type} (P : Provider σ) (o : Schedule) (aclID : String)
    (loc : Locals) (s : σ) :
    (recover P o aclID loc s).locals = loc ∧
    ((∃ (done : List (String × String)) (a x : String) (rest : List (String × String))
        (news : List String) (err : String),
      o.restore.order loc.newAclAssociations = done ++ (a, x) :: rest ∧
      news.length = done.length ∧
      (recover P o aclID loc s).trace =
        Event.info "start recovery error injection" [] ::
          (restoreEvents done news ++ [failedRebind a x err]) ∧
      (recover P o aclID loc s).outcome =
        Outcome.fatal "ReplaceNetworkAclAssociation" (some err)) ∨
    (∃ (news : List String) (reply : Reply Unit),
      news.length = (o.restore.order loc.newAclAssociations).length ∧
      (recover P o aclID loc s).trace =
        Event.info "start recovery error injection" [] ::
          (restoreEvents (o.restore.order loc.newAclAssociations) news ++
            cleanupEvents aclID reply) ∧
      (recover P o aclID loc s).outcome = cleanupOutcome reply)) := by
  unfold recover
  simp only
  rcases restoreLoop_anatomy P (o.restore.order loc.newAclAssociations) s with
    ⟨news, hl, he, ht⟩ | ⟨done, a, x, rest, news, err, hes, hl, he, ht⟩
  · rw [he]
    obtain ⟨reply, hct, hco, hcl⟩ := cleanup_anatomy P aclID loc
      (restoreLoop P (o.restore.order loc.newAclAssociations) s).state
    refine ⟨by simp [Run.after, hcl], Or.inr ⟨news, reply, hl, ?_, ?_⟩⟩
    · simp [Run.after, hct, ht]
    · simp [Run.after, hco]
  · rw [he]
    refine ⟨rfl, Or.inl ⟨done, a, x, rest, news, err, hes, hl, ?_, rfl⟩⟩
    simp [ht, failedRebind]

theorem installAndRecover_anatomy {σ : Type} (P : Provider σ) (o : Schedule) (g : Config)
    (aclID : String) (origin : GoMap) (s : σ) :
    (∃ (done : List (String × String)) (a x : String) (rest : List (String × String))
        (news : List String) (err : String),
      o.install.order origin = done ++ (a, x) :: rest ∧ news.length = done.length ∧
      (installAndRecover P o g aclID origin s).trace =
        installEvents aclID done news ++ [failedRebind a aclID err] ∧
      (installAndRecover P o g aclID origin s).outcome =
        Outcome.fatal "ReplaceNetworkAclAssociation" (some err) ∧
      (installAndRecover P o g aclID origin s).locals =
        ⟨origin, some aclID, recorded [] done news⟩) ∨
    (∃ news : List String, news.length = (o.install.order origin).length ∧
      (installAndRecover P o g aclID origin s).locals =
        ⟨origin, some aclID, recorded [] (o.install.order origin) news⟩ ∧
      ((∃ (done : List (String × String)) (a x : String) (rest : List (String × String))
          (news' : List String) (err : String),
        o.restore.order (recorded [] (o.install.order origin) news) = done ++ (a, x) :: rest ∧
        news'.length = done.length ∧
        (installAndRecover P o g aclID origin s).trace =
          installEvents aclID (o.install.order origin) news ++ (holdEvents g ++
            (restoreEvents done news' ++ [failedRebind a x err])) ∧
        (installAndRecover P o g aclID origin s).outcome =
          Outcome.fatal "ReplaceNetworkAclAssociation" (some err)) ∨
      (∃ (news' : List String) (reply : Reply Unit),
        news'.length = (o.restore.order (recorded [] (o.install.order origin) news)).length ∧
        (installAndRecover P o g aclID origin s).trace =
          installEvents aclID (o.install.order origin) news ++ (holdEvents g ++
            (restoreEvents (o.restore.order (recorded [] (o.install.order origin) news)) news' ++
              cleanupEvents aclID reply)) ∧
        (installAndRecover P o g aclID origin s).outcome = cleanupOutcome reply))) := by
  unfold installAndRecover
  simp only
  rcases installLoop_anatomy P aclID (o.install.order origin) [] s with
    ⟨news, hl, he, ht, hv⟩ | ⟨done, a, x, rest, news, err, hes, hl, he, ht, hv⟩
  · rw [he]
    right
    simp only [hv, ht]
    obtain ⟨hloc, h⟩ := recover_anatomy P o aclID
      ⟨origin, some aclID, recorded [] (o.install.order origin) news⟩
      (installLoop P aclID (o.install.order origin) [] s).state
    refine ⟨news, hl, by simp [Run.after, hloc], ?_⟩
    rcases h with ⟨done, a, x, rest, news', err, hes, hl', ht', ho'⟩ | ⟨news', reply, hl', ht', ho'⟩
    · refine Or.inl ⟨done, a, x, rest, news', err, hes, hl', ?_, by simp [Run.after, ho']⟩
      simp [Run.after, ht', holdEvents]
    · refine Or.inr ⟨news', reply, hl', ?_, by simp [Run.after, ho']⟩
      simp [Run.after, ht', holdEvents]
  · rw [he]
    left
    exact ⟨done, a, x, rest, news, err, hes, hl, by simp [ht, failedRebind], rfl, by simp [hv]⟩

theorem discoverLoop_quiet {σ : Type} (P : Provider σ) (vpcID : String)
    (subnets : List Subnet) (m : GoMap) (s : σ) :
    ∀ e ∈ (discoverLoop P vpcID subnets m s).trace, e.isQuiet = true := by
  intro e he
  obtain ⟨n, r, rfl⟩ := discoverLoop_events P vpcID subnets m s e he
  rfl

theorem createAndInject_anatomy {σ : Type} (P : Provider σ) (o : Schedule) (g : Config)
    (origin : GoMap) (s : σ) :
    ((∀ e ∈ (createAndInject P o g origin s).trace, e.isQuiet = true ∧ e.isDescribeAcls = false) ∧
      (createAndInject P o g origin s).locals.originAclAssociations = origin ∧
      (createAndInject P o g origin s).locals.newAclAssociations = []) ∨
    (∃ (aclID : String) (s4 : σ),
      createAndInject P o g origin s =
        (installAndRecover P o g aclID origin s4).after (ruleEvents g origin aclID)) := by
  unfold createAndInject
  split
  · left
    refine ⟨?_, rfl, rfl⟩
    intro e he
    simp only [List.mem_cons, List.mem_singleton, List.not_mem_nil, or_false] at he
    rcases he with rfl | rfl <;> exact ⟨rfl, rfl⟩
  · split
    · left
      refine ⟨?_, rfl, rfl⟩
      intro e he
      simp only [List.mem_cons, List.mem_singleton, List.not_mem_nil, or_false] at he
      rcases he with rfl | rfl | rfl | rfl <;> exact ⟨rfl, rfl⟩
    · split
      · left
        refine ⟨?_, rfl, rfl⟩
        intro e he
        simp only [List.mem_cons, List.mem_singleton, List.not_mem_nil, or_false] at he
        rcases he with rfl | rfl | rfl | rfl | rfl <;> exact ⟨rfl, rfl⟩
      · right
        exact ⟨_, _, rfl⟩

theorem main_anatomy {σ : Type} (P : Provider σ) (o : Schedule) (inv : Invocation) (s : σ) :
    ((∀ e ∈ (main P o inv s).trace, e.isQuiet = true) ∧
      (main P o inv s).locals.newAclAssociations = []) ∨
    (∃ (subnets : List Subnet) (s1 : σ) (aclID : String) (s4 : σ),
      P.describeSubnets s (flagParse inv).vpcID (flagParse inv).availabilityZone
        = (Reply.ok subnets, s1) ∧
      (discoverLoop P (flagParse inv).vpcID subnets [] s1).err = none ∧
      main P o inv s =
        (installAndRecover P o (flagParse inv) aclID
          (discoverLoop P (flagParse inv).vpcID subnets [] s1).vars s4).after
          (Event.describeSubnets (flagParse inv).vpcID (flagParse inv).availabilityZone
              (.ok subnets) ::
            Event.info "DescribeSubnetsResult" [.subnets "Subnets" subnets] ::
            ((discoverLoop P (flagParse inv).vpcID subnets [] s1).trace ++
              ruleEvents (flagParse inv)
                (discoverLoop P (flagParse inv).vpcID subnets [] s1).vars aclID))) := by
  unfold main
  simp only
  split
  · left
    exact ⟨by simp, rfl⟩
  · split
    · left
      refine ⟨?_, rfl⟩
      intro e he
      simp only [List.mem_singleton] at he
      subst he
      rfl
    · rename_i subnets s1 hds
      split
      · left
        refine ⟨?_, rfl⟩
        intro e he
        simp only [List.mem_cons, List.mem_singleton, List.not_mem_nil, or_false] at he
        rcases he with rfl | rfl <;> rfl
      · split
        · left
          refine ⟨?_, rfl⟩
          intro e he
          simp only [List.cons_append, List.nil_append, List.mem_cons] at he
          rcases he with rfl | rfl | he
          · rfl
          · rfl
          · exact discoverLoop_quiet _ _ _ _ _ e he
        · rename_i hd
          rcases createAndInject_anatomy P o (flagParse inv)
              (discoverLoop P (flagParse inv).vpcID subnets [] s1).vars
              (discoverLoop P (flagParse inv).vpcID subnets [] s1).state with
            ⟨hq, _, hn⟩ | ⟨aclID, s4, hc⟩
          · left
            refine ⟨?_, by simp [Run.after, hn]⟩
            intro e he
            simp only [Run.after, List.cons_append, List.nil_append, List.mem_cons,
              List.mem_append] at he
            rcases he with rfl | rfl | he | he
            · rfl
            · rfl
            · exact discoverLoop_quiet _ _ _ _ _ e he
            · exact (hq e he).1
          · right
            refine ⟨subnets, s1, aclID, s4, hds, hd, ?_⟩
            rw [hc]
            simp [Run.after]


/-! ### Reading traces -/

theorem rebinds_append (t u : List Event) : rebinds (t ++ u) = rebinds t ++ rebinds u := by
  simp [rebinds]

theorem sleeps_append (t u : List Event) : sleeps (t ++ u) = sleeps t ++ sleeps u := by
  simp [sleeps]

theorem deletions_append (t u : List Event) :
    deletions (t ++ u) = deletions t ++ deletions u := by
  simp [deletions]

theorem rebinds_of_quiet {t : List Event} (h : ∀ e ∈ t, e.isQuiet = true) : rebinds t = [] := by
  unfold rebinds
  rw [List.filterMap_eq_nil_iff]
  intro e he
  have := h e he
  cases e <;> simp_all [Event.isQuiet, Event.rebind]

theorem sleeps_of_quiet {t : List Event} (h : ∀ e ∈ t, e.isQuiet = true) : sleeps t = [] := by
  unfold sleeps
  rw [List.filterMap_eq_nil_iff]
  intro e he
  have := h e he
  cases e <;> simp_all [Event.isQuiet]

theorem deletions_of_quiet {t : List Event} (h : ∀ e ∈ t, e.isQuiet = true) :
    deletions t = [] := by
  unfold deletions
  rw [List.filterMap_eq_nil_iff]
  intro e he
  have := h e he
  cases e <;> simp_all [Event.isQuiet, Event.deletion]

theorem noSleep_of_quiet {t : List Event} (h : ∀ e ∈ t, e.isQuiet = true) :
    ∀ e ∈ t, e.isSleep = false := by
  intro e he
  have := h e he
  cases e <;> simp_all [Event.isQuiet, Event.isSleep]

theorem beforeSleep_append {t : List Event} (u : List Event)
    (h : ∀ e ∈ t, e.isSleep = false) : beforeSleep (t ++ u) = t ++ beforeSleep u := by
  unfold beforeSleep
  exact List.takeWhile_append_of_pos (by intro e he; simp [h e he])

theorem afterSleep_append {t : List Event} (u : List Event)
    (h : ∀ e ∈ t, e.isSleep = false) : afterSleep (t ++ u) = afterSleep u := by
  unfold afterSleep
  rw [List.dropWhile_append_of_pos (by intro e he; simp [h e he])]

theorem beforeSleep_of_noSleep {t : List Event} (h : ∀ e ∈ t, e.isSleep = false) :
    beforeSleep t = t := by
  have := beforeSleep_append [] h
  simpa [beforeSleep] using this

theorem mem_rebinds {t : List Event} {a acl : String} {r : Reply String} :
    (a, acl, r) ∈ rebinds t ↔ Event.replaceNetworkAclAssociation a acl r ∈ t := by
  unfold rebinds
  rw [List.mem_filterMap]
  constructor
  · rintro ⟨e, he, h⟩
    cases e <;> simp_all [Event.rebind]
  · intro h
    exact ⟨_, h, rfl⟩

theorem mem_deletions {t : List Event} {acl : String} {r : Reply Unit} :
    (acl, r) ∈ deletions t ↔ Event.deleteNetworkAcl acl r ∈ t := by
  unfold deletions
  rw [List.mem_filterMap]
  constructor
  · rintro ⟨e, he, h⟩
    cases e <;> simp_all [Event.deletion]
  · intro h
    exact ⟨_, h, rfl⟩

theorem mem_sleeps {t : List Event} {d : Int} : d ∈ sleeps t ↔ Event.sleep d ∈ t := by
  unfold sleeps
  rw [List.mem_filterMap]
  constructor
  · rintro ⟨e, he, h⟩
    cases e <;> simp_all
  · intro h
    exact ⟨_, h, rfl⟩

theorem installEvents_mem {aclID : String} :
    ∀ {es : List (String × String)} {news : List String} {e : Event},
      e ∈ installEvents aclID es news →
        ∃ a x n, (a, x) ∈ es ∧ n ∈ news ∧
          e = Event.replaceNetworkAclAssociation a aclID (.ok n) := by
  intro es
  induction es with
  | nil => intro news e he; simp [installEvents] at he
  | cons p rest ih =>
    intro news e he
    cases news with
    | nil => simp [installEvents] at he
    | cons n news =>
      simp only [installEvents, List.zipWith_cons_cons, List.mem_cons] at he
      rcases he with rfl | he
      · exact ⟨p.1, p.2, n, by simp, by simp, rfl⟩
      · obtain ⟨a, x, n', h1, h2, h3⟩ := ih he
        exact ⟨a, x, n', by simp [h1], by simp [h2], h3⟩

theorem restoreEvents_mem :
    ∀ {es : List (String × String)} {news : List String} {e : Event},
      e ∈ restoreEvents es news →
        ∃ a x n, (a, x) ∈ es ∧ n ∈ news ∧
          e = Event.replaceNetworkAclAssociation a x (.ok n) := by
  intro es
  induction es with
  | nil => intro news e he; simp [restoreEvents] at he
  | cons p rest ih =>
    intro news e he
    cases news with
    | nil => simp [restoreEvents] at he
    | cons n news =>
      simp only [restoreEvents, List.zipWith_cons_cons, List.mem_cons] at he
      rcases he with rfl | he
      · exact ⟨p.1, p.2, n, by simp, by simp, rfl⟩
      · obtain ⟨a, x, n', h1, h2, h3⟩ := ih he
        exact ⟨a, x, n', by simp [h1], by simp [h2], h3⟩

theorem rebinds_installEvents (aclID : String) (es : List (String × String))
    (news : List String) :
    rebinds (installEvents aclID es news) =
      List.zipWith (fun e n => (e.1, aclID, Reply.ok n)) es news := by
  induction es generalizing news with
  | nil => simp [installEvents, rebinds]
  | cons p rest ih =>
    cases news with
    | nil => simp [installEvents, rebinds]
    | cons n news =>
      have := ih news
      simp only [installEvents, rebinds] at this
      simp [installEvents, rebinds, Event.rebind, this]

theorem rebinds_restoreEvents (es : List (String × String)) (news : List String) :
    rebinds (restoreEvents es news) =
      List.zipWith (fun e n => (e.1, e.2, Reply.ok n)) es news := by
  induction es generalizing news with
  | nil => simp [restoreEvents, rebinds]
  | cons p rest ih =>
    cases news with
    | nil => simp [restoreEvents, rebinds]
    | cons n news =>
      have := ih news
      simp only [restoreEvents, rebinds] at this
      simp [restoreEvents, rebinds, Event.rebind, this]

theorem installEvents_noSleep (aclID : String) (es : List (String × String))
    (news : List String) : ∀ e ∈ installEvents aclID es news, e.isSleep = false := by
  intro e he
  obtain ⟨a, x, n, _, _, rfl⟩ := installEvents_mem he
  rfl

theorem restoreEvents_noSleep (es : List (String × String)) (news : List String) :
    ∀ e ∈ restoreEvents es news, e.isSleep = false := by
  intro e he
  obtain ⟨a, x, n, _, _, rfl⟩ := restoreEvents_mem he
  rfl

theorem sleeps_installEvents (aclID : String) (es : List (String × String))
    (news : List String) : sleeps (installEvents aclID es news) = [] := by
  unfold sleeps
  rw [List.filterMap_eq_nil_iff]
  intro e he
  obtain ⟨a, x, n, _, _, rfl⟩ := installEvents_mem he
  rfl

theorem sleeps_restoreEvents (es : List (String × String)) (news : List String) :
    sleeps (restoreEvents es news) = [] := by
  unfold sleeps
  rw [List.filterMap_eq_nil_iff]
  intro e he
  obtain ⟨a, x, n, _, _, rfl⟩ := restoreEvents_mem he
  rfl

theorem deletions_installEvents (aclID : String) (es : List (String × String))
    (news : List String) : deletions (installEvents aclID es news) = [] := by
  unfold deletions
  rw [List.filterMap_eq_nil_iff]
  intro e he
  obtain ⟨a, x, n, _, _, rfl⟩ := installEvents_mem he
  rfl

theorem deletions_restoreEvents (es : List (String × String)) (news : List String) :
    deletions (restoreEvents es news) = [] := by
  unfold deletions
  rw [List.filterMap_eq_nil_iff]
  intro e he
  obtain ⟨a, x, n, _, _, rfl⟩ := restoreEvents_mem he
  rfl

theorem afterSleep_holdEvents (g : Config) (u : List Event) :
    afterSleep (holdEvents g ++ u) = Event.info "start recovery error injection" [] :: u := by
  simp [afterSleep, holdEvents, List.dropWhile_cons, Event.isSleep]

theorem beforeSleep_holdEvents (g : Config) (u : List Event) :
    beforeSleep (holdEvents g ++ u) =
      [Event.info "inject availability zone network partition successful" [],
       Event.info "sleep" [.duration "durtion" g.duration]] := by
  simp [beforeSleep, holdEvents, List.takeWhile_cons, Event.isSleep]

theorem sleeps_holdEvents (g : Config) : sleeps (holdEvents g) = [sleepArg g.duration] := by
  simp [sleeps, holdEvents]

theorem rebinds_holdEvents (g : Config) : rebinds (holdEvents g) = [] := by
  simp [rebinds, holdEvents, Event.rebind]

theorem deletions_holdEvents (g : Config) : deletions (holdEvents g) = [] := by
  simp [deletions, holdEvents, Event.deletion]

theorem rebinds_cleanupEvents (aclID : String) (reply : Reply Unit) :
    rebinds (cleanupEvents aclID reply) = [] := by
  cases reply <;> simp [rebinds, cleanupEvents, Event.rebind]

theorem sleeps_cleanupEvents (aclID : String) (reply : Reply Unit) :
    sleeps (cleanupEvents aclID reply) = [] := by
  cases reply <;> simp [sleeps, cleanupEvents]

theorem deletions_cleanupEvents (aclID : String) (reply : Reply Unit) :
    deletions (cleanupEvents aclID reply) = [(aclID, reply)] := by
  cases reply <;> simp [deletions, cleanupEvents, Event.deletion]

theorem rebinds_failedRebind (a acl err : String) :
    rebinds [failedRebind a acl err] = [(a, acl, Reply.error err)] := by
  simp [rebinds, failedRebind, Event.rebind]

theorem sleeps_failedRebind (a acl err : String) : sleeps [failedRebind a acl err] = [] := by
  simp [sleeps, failedRebind]

theorem deletions_failedRebind (a acl err : String) :
    deletions [failedRebind a acl err] = [] := by
  simp [deletions, failedRebind, Event.deletion]

/-! ### The shape of a run -/

theorem preamble_quiet (g : Config) (subnets : List Subnet) {dtrace : List Event}
    (origin : GoMap) (aclID : String) (h : ∀ e ∈ dtrace, e.isQuiet = true) :
    ∀ e ∈ preamble g subnets dtrace origin aclID, e.isQuiet = true := by
  intro e he
  simp only [preamble, ruleEvents, List.mem_cons, List.mem_append, List.not_mem_nil,
    or_false] at he
  rcases he with rfl | rfl | he | rfl | rfl | rfl | rfl | rfl
  · rfl
  · rfl
  · exact h e he
  all_goals rfl

theorem main_cases {σ : Type} (P : Provider σ) (o : Schedule) (inv : Invocation) (s : σ) :
    ((∀ e ∈ (main P o inv s).trace, e.isQuiet = true) ∧
      (main P o inv s).locals.newAclAssociations = []) ∨
    (∃ (subnets : List Subnet) (s1 : σ) (aclID : String) (pre : List Event),
      P.describeSubnets s (flagParse inv).vpcID (flagParse inv).availabilityZone
        = (Reply.ok subnets, s1) ∧
      (discoverLoop P (flagParse inv).vpcID subnets [] s1).err = none ∧
      pre = preamble (flagParse inv) subnets
        (discoverLoop P (flagParse inv).vpcID subnets [] s1).trace
        (discoverLoop P (flagParse inv).vpcID subnets [] s1).vars aclID ∧
      (main P o inv s).locals.originAclAssociations =
        (discoverLoop P (flagParse inv).vpcID subnets [] s1).vars ∧
      (main P o inv s).locals.aclID = some aclID ∧
      ((∃ (done : List (String × String)) (a x : String) (rest : List (String × String))
          (news : List String) (err : String),
        o.install.order (main P o inv s).locals.originAclAssociations
          = done ++ (a, x) :: rest ∧
        news.length = done.length ∧
        (main P o inv s).trace =
          pre ++ (installEvents aclID done news ++ [failedRebind a aclID err]) ∧
        (main P o inv s).outcome = Outcome.fatal "ReplaceNetworkAclAssociation" (some err) ∧
        (main P o inv s).locals.newAclAssociations = recorded [] done news) ∨
      (∃ news : List String,
        news.length = (o.install.order (main P o inv s).locals.originAclAssociations).length ∧
        (main P o inv s).locals.newAclAssociations =
          recorded [] (o.install.order (main P o inv s).locals.originAclAssociations) news ∧
        ((∃ (done : List (String × String)) (a x : String) (rest : List (String × String))
            (news' : List String) (err : String),
          o.restore.order (main P o inv s).locals.newAclAssociations
            = done ++ (a, x) :: rest ∧
          news'.length = done.length ∧
          (main P o inv s).trace =
            pre ++ (installEvents aclID
              (o.install.order (main P o inv s).locals.originAclAssociations) news ++
              (holdEvents (flagParse inv) ++
                (restoreEvents done news' ++ [failedRebind a x err]))) ∧
          (main P o inv s).outcome =
            Outcome.fatal "ReplaceNetworkAclAssociation" (some err)) ∨
        (∃ (news' : List String) (reply : Reply Unit),
          news'.length = (o.restore.order (main P o inv s).locals.newAclAssociations).length ∧
          (main P o inv s).trace =
            pre ++ (installEvents aclID
              (o.install.order (main P o inv s).locals.originAclAssociations) news ++
              (holdEvents (flagParse inv) ++
                (restoreEvents (o.restore.order (main P o inv s).locals.newAclAssociations)
                  news' ++ cleanupEvents aclID reply))) ∧
          (main P o inv s).outcome = cleanupOutcome reply))))) := by
  rcases main_anatomy P o inv s with h | ⟨subnets, s1, aclID, s4, hds, hd, hmain⟩
  · exact Or.inl h
  · right
    refine ⟨subnets, s1, aclID, _, hds, hd, rfl, ?_⟩
    rw [hmain]
    rcases installAndRecover_anatomy P o (flagParse inv) aclID
        (discoverLoop P (flagParse inv).vpcID subnets [] s1).vars s4 with
      ⟨done, a, x, rest, news, err, hes, hl, ht, ho, hloc⟩ | ⟨news, hl, hloc, h⟩
    · refine ⟨by simp [Run.after, hloc], by simp [Run.after, hloc], Or.inl ?_⟩
      refine ⟨done, a, x, rest, news, err, by simpa [Run.after, hloc] using hes, hl, ?_,
        by simp [Run.after, ho], by simp [Run.after, hloc]⟩
      simp [Run.after, ht, preamble]
    · refine ⟨by simp [Run.after, hloc], by simp [Run.after, hloc], Or.inr ?_⟩
      refine ⟨news, by simpa [Run.after, hloc] using hl, by simp [Run.after, hloc], ?_⟩
      rcases h with ⟨done, a, x, rest, news', err, hes, hl', ht, ho⟩ | ⟨news', reply, hl', ht, ho⟩
      · refine Or.inl ⟨done, a, x, rest, news', err, by simpa [Run.after, hloc] using hes, hl',
          ?_, by simp [Run.after, ho]⟩
        simp [Run.after, ht, hloc, preamble]
      · refine Or.inr ⟨news', reply, by simpa [Run.after, hloc] using hl', ?_,
          by simp [Run.after, ho]⟩
        simp [Run.after, ht, hloc, preamble]


/-! ### Restoration and clean-up -/

theorem rebinds_info_cons (msg : String) (fields : List LogField) (t : List Event) :
    rebinds (Event.info msg fields :: t) = rebinds t := rfl

theorem rebinds_restoreEvents_ok (es : List (String × String)) (news : List String) :
    ∀ c ∈ rebinds (restoreEvents es news), c.2.2.isOk = true := by
  intro c hc
  obtain ⟨a, acl, r⟩ := c
  rw [mem_rebinds] at hc
  obtain ⟨a', x, n, _, _, h⟩ := restoreEvents_mem hc
  cases h
  rfl

theorem length_rebinds_restoreEvents (es : List (String × String)) (news : List String)
    (h : news.length = es.length) : (rebinds (restoreEvents es news)).length = es.length := by
  rw [rebinds_restoreEvents]
  simp [h]

theorem rebinds_installEvents_ok (aclID : String) (es : List (String × String))
    (news : List String) :
    ∀ c ∈ rebinds (installEvents aclID es news), c.2.2.isOk = true := by
  intro c hc
  obtain ⟨a, acl, r⟩ := c
  rw [mem_rebinds] at hc
  obtain ⟨a', x, n, _, _, h⟩ := installEvents_mem hc
  cases h
  rfl

/-- C7 (clean-up precondition): in every run that reaches the restoration
stage, that is, every run that sleeps, `DeleteNetworkAcl` on the injected ACL
is attempted if and only if a restoration rebind was made for each entry of
`newAclAssociations` and each of them succeeded; no other ACL is ever deleted. -/
theorem cleanup_iff_all_restored {σ : Type} (P : Provider σ) (o : Schedule) (inv : Invocation)
    (s : σ) (h : sleeps (main P o inv s).trace ≠ []) :
    ∃ aclID, (main P o inv s).locals.aclID = some aclID ∧
      ((∃ reply, Event.deleteNetworkAcl aclID reply ∈ (main P o inv s).trace) ↔
        ((rebinds (afterSleep (main P o inv s).trace)).length
            = (main P o inv s).locals.newAclAssociations.length ∧
          ∀ c ∈ rebinds (afterSleep (main P o inv s).trace), c.2.2.isOk = true)) ∧
      (∀ acl reply, Event.deleteNetworkAcl acl reply ∈ (main P o inv s).trace →
        acl = aclID) := by
  rcases main_cases P o inv s with ⟨hq, _⟩ |
    ⟨subnets, s1, aclID, pre, hds, hd, hpre, horig, hacl, hc⟩
  · exact absurd (sleeps_of_quiet hq) h
  · have hpq : ∀ e ∈ pre, e.isQuiet = true := by
      rw [hpre]
      exact preamble_quiet _ _ _ _ (discoverLoop_quiet _ _ _ _ _)
    refine ⟨aclID, hacl, ?_⟩
    rcases hc with ⟨done, a, x, rest, news, err, hes, hl, ht, ho, hn⟩ | ⟨news, hl, hn, hc⟩
    · exfalso
      apply h
      rw [ht]
      simp [sleeps_append, sleeps_of_quiet hpq, sleeps_installEvents, sleeps_failedRebind]
    · rcases hc with ⟨done, a, x, rest, news', err, hes, hl', ht, ho⟩ |
        ⟨news', reply, hl', ht, ho⟩
      · have hdel : deletions (main P o inv s).trace = [] := by
          rw [ht]
          simp [deletions_append, deletions_of_quiet hpq, deletions_installEvents,
            deletions_holdEvents, deletions_restoreEvents, deletions_failedRebind]
        have haft : rebinds (afterSleep (main P o inv s).trace) =
            rebinds (restoreEvents done news') ++ [(a, x, Reply.error err)] := by
          rw [ht, afterSleep_append _ (noSleep_of_quiet hpq),
            afterSleep_append _ (installEvents_noSleep _ _ _), afterSleep_holdEvents]
          simp [rebinds_append, rebinds_failedRebind, rebinds_info_cons]
        refine ⟨⟨?_, ?_⟩, ?_⟩
        · rintro ⟨reply, hr⟩
          rw [← mem_deletions, hdel] at hr
          simp at hr
        · rintro ⟨_, hall⟩
          have := hall (a, x, Reply.error err) (by rw [haft]; simp)
          simp [Reply.isOk] at this
        · intro acl reply hr
          rw [← mem_deletions, hdel] at hr
          simp at hr
      · have hdel : deletions (main P o inv s).trace = [(aclID, reply)] := by
          rw [ht]
          simp [deletions_append, deletions_of_quiet hpq, deletions_installEvents,
            deletions_holdEvents, deletions_restoreEvents, deletions_cleanupEvents]
        have haft : rebinds (afterSleep (main P o inv s).trace) =
            rebinds (restoreEvents
              (o.restore.order (main P o inv s).locals.newAclAssociations) news') := by
          rw [ht, afterSleep_append _ (noSleep_of_quiet hpq),
            afterSleep_append _ (installEvents_noSleep _ _ _), afterSleep_holdEvents]
          simp [rebinds_append, rebinds_cleanupEvents, rebinds_info_cons]
        refine ⟨⟨fun _ => ⟨?_, ?_⟩, fun _ => ⟨reply, ?_⟩⟩, ?_⟩
        · rw [haft, length_rebinds_restoreEvents _ _ hl']
          exact (o.restore.perm _).length_eq
        · rw [haft]
          exact rebinds_restoreEvents_ok _ _
        · rw [← mem_deletions, hdel]
          simp
        · intro acl reply' hr
          rw [← mem_deletions, hdel] at hr
          simp at hr
          exact hr.1

set_option maxRecDepth 100000 in
/-- Witness for C7: the scenario of the specification with a zero hold. -/
theorem cleanup_iff_all_restored_witness :
    ∃ aclID, (main cloud inOrder (invoke (some 0)) scenario).locals.aclID = some aclID ∧
      ((∃ reply, Event.deleteNetworkAcl aclID reply ∈
          (main cloud inOrder (invoke (some 0)) scenario).trace) ↔
        ((rebinds (afterSleep (main cloud inOrder (invoke (some 0)) scenario).trace)).length
            = (main cloud inOrder (invoke (some 0)) scenario).locals.newAclAssociations.length ∧
          ∀ c ∈ rebinds (afterSleep (main cloud inOrder (invoke (some 0)) scenario).trace),
            c.2.2.isOk = true)) ∧
      (∀ acl reply, Event.deleteNetworkAcl acl reply ∈
          (main cloud inOrder (invoke (some 0)) scenario).trace → acl = aclID) :=
  cleanup_iff_all_restored cloud inOrder (invoke (some 0)) scenario (by decide)

/-- C5, as the code has it: in every run that reaches the restoration stage,
the entries of `newAclAssociations` are rebound to their original ACLs one by
one in iteration order, up to and including the first entry whose rebind
fails.  When none fails every entry is attempted; when one fails the process
ends there in `logger.Fatal`, and the entries after it are not attempted. -/
theorem restoration_stops_at_first_failure {σ : Type} (P : Provider σ) (o : Schedule)
    (inv : Invocation) (s : σ) (h : sleeps (main P o inv s).trace ≠ []) :
    ∃ (done rest : List (String × String)) (news : List String),
      o.restore.order (main P o inv s).locals.newAclAssociations = done ++ rest ∧
      news.length = done.length ∧
      ((rest = [] ∧
          rebinds (afterSleep (main P o inv s).trace) = rebinds (restoreEvents done news)) ∨
        (∃ (a x : String) (rest' : List (String × String)) (err : String),
          rest = (a, x) :: rest' ∧
          rebinds (afterSleep (main P o inv s).trace) =
            rebinds (restoreEvents done news) ++ [(a, x, Reply.error err)] ∧
          (main P o inv s).trace.getLast? = some (failedRebind a x err) ∧
          (main P o inv s).outcome =
            Outcome.fatal "ReplaceNetworkAclAssociation" (some err))) := by
  rcases main_cases P o inv s with ⟨hq, _⟩ |
    ⟨subnets, s1, aclID, pre, hds, hd, hpre, horig, hacl, hc⟩
  · exact absurd (sleeps_of_quiet hq) h
  · have hpq : ∀ e ∈ pre, e.isQuiet = true := by
      rw [hpre]
      exact preamble_quiet _ _ _ _ (discoverLoop_quiet _ _ _ _ _)
    rcases hc with ⟨done, a, x, rest, news, err, hes, hl, ht, ho, hn⟩ | ⟨news, hl, hn, hc⟩
    · exfalso
      apply h
      rw [ht]
      simp [sleeps_append, sleeps_of_quiet hpq, sleeps_installEvents, sleeps_failedRebind]
    · rcases hc with ⟨done, a, x, rest, news', err, hes, hl', ht, ho⟩ |
        ⟨news', reply, hl', ht, ho⟩
      · refine ⟨done, (a, x) :: rest, news', hes, hl', Or.inr ⟨a, x, rest, err, rfl, ?_, ?_, ho⟩⟩
        · rw [ht, afterSleep_append _ (noSleep_of_quiet hpq),
            afterSleep_append _ (installEvents_noSleep _ _ _), afterSleep_holdEvents]
          simp [rebinds_append, rebinds_failedRebind, rebinds_info_cons]
        · rw [ht]
          simp [← List.append_assoc]
      · refine ⟨_, [], news', (List.append_nil _).symm, hl', Or.inl ⟨rfl, ?_⟩⟩
        rw [ht, afterSleep_append _ (noSleep_of_quiet hpq),
          afterSleep_append _ (installEvents_noSleep _ _ _), afterSleep_holdEvents]
        simp [rebinds_append, rebinds_cleanupEvents, rebinds_info_cons]

set_option maxRecDepth 100000 in
/-- Witness for the amended C5: the scenario of the specification. -/
theorem restoration_stops_at_first_failure_witness :
    ∃ (done rest : List (String × String)) (news : List String),
      inOrder.restore.order
          (main cloud inOrder (invoke (some 0)) scenario).locals.newAclAssociations
        = done ++ rest ∧
      news.length = done.length ∧
      ((rest = [] ∧
          rebinds (afterSleep (main cloud inOrder (invoke (some 0)) scenario).trace)
            = rebinds (restoreEvents done news)) ∨
        (∃ (a x : String) (rest' : List (String × String)) (err : String),
          rest = (a, x) :: rest' ∧
          rebinds (afterSleep (main cloud inOrder (invoke (some 0)) scenario).trace) =
            rebinds (restoreEvents done news) ++ [(a, x, Reply.error err)] ∧
          (main cloud inOrder (invoke (some 0)) scenario).trace.getLast?
            = some (failedRebind a x err) ∧
          (main cloud inOrder (invoke (some 0)) scenario).outcome =
            Outcome.fatal "ReplaceNetworkAclAssociation" (some err))) :=
  restoration_stops_at_first_failure cloud inOrder (invoke (some 0)) scenario (by decide)

set_option maxRecDepth 100000 in
/-- C5 fails when a restoration rebind fails: on the scenario, with the third
rebind request (the first of the restoration) refused, the restoration stage
is reached with two entries to restore, the first is attempted and fails, and
the second is never attempted; the run ends in `logger.Fatal`. -/
theorem restoration_failure_skips_remaining :
    (main flaky inOrder (invoke (some 0)) (scenario, some 2)).locals.newAclAssociations =
        [("xxxxxxxxxx", "acl-orig"), ("xxxxxxxxxxx", "acl-orig")] ∧
      sleeps (main flaky inOrder (invoke (some 0)) (scenario, some 2)).trace = [0] ∧
      rebinds (afterSleep (main flaky inOrder (invoke (some 0)) (scenario, some 2)).trace) =
        [("xxxxxxxxxx", "acl-orig", Reply.error "RequestLimitExceeded")] ∧
      (main flaky inOrder (invoke (some 0)) (scenario, some 2)).outcome =
        Outcome.fatal "ReplaceNetworkAclAssociation" (some "RequestLimitExceeded") := by
  decide


/-! ### Installation failure -/

theorem isInfo_installEvents (aclID : String) (es : List (String × String))
    (news : List String) : (installEvents aclID es news).filter Event.isInfo = [] := by
  rw [List.filter_eq_nil_iff]
  intro e he
  obtain ⟨a, x, n, _, _, rfl⟩ := installEvents_mem he
  simp [Event.isInfo]

theorem isInfo_discoverLoop {σ : Type} (P : Provider σ) (vpcID : String)
    (subnets : List Subnet) (m : GoMap) (s : σ) :
    (discoverLoop P vpcID subnets m s).trace.filter Event.isInfo = [] := by
  rw [List.filter_eq_nil_iff]
  intro e he
  obtain ⟨n, r, rfl⟩ := discoverLoop_events P vpcID subnets m s e he
  simp [Event.isInfo]

/-- C8, as the code has it: in every run in which an installation rebind
fails, the rebinds made are those of the entries before the failing one, in
iteration order, followed by the failing one, which is the last event of the
run: no later entry is rebound, nothing is rolled back, restored or deleted
and the run does not sleep.  The run ends in `logger.Fatal`, and what it
reports is the three log records written before the installation loop (the
subnets, the checkpoint map and the id of the injected ACL) and the fatal record
with the provider's error as returned, and nothing else; the completed
rebinds, recorded in `newAclAssociations`, are in memory only. -/
theorem install_failure_aborts {σ : Type} (P : Provider σ) (o : Schedule) (inv : Invocation)
    (s : σ) (a acl err : String)
    (h : Event.replaceNetworkAclAssociation a acl (.error err) ∈ (main P o inv s).trace)
    (hs : sleeps (main P o inv s).trace = []) :
    ∃ (done : List (String × String)) (x : String) (rest : List (String × String))
        (news : List String) (subnets : List Subnet),
      (main P o inv s).locals.aclID = some acl ∧
      o.install.order (main P o inv s).locals.originAclAssociations
        = done ++ (a, x) :: rest ∧
      news.length = done.length ∧
      rebinds (main P o inv s).trace =
        rebinds (installEvents acl done news) ++ [(a, acl, Reply.error err)] ∧
      (main P o inv s).trace.getLast? = some (failedRebind a acl err) ∧
      deletions (main P o inv s).trace = [] ∧
      (main P o inv s).locals.newAclAssociations = recorded [] done news ∧
      report (main P o inv s) =
        ([Event.info "DescribeSubnetsResult" [.subnets "Subnets" subnets],
          Event.info "DescribeNetworkAclsResult"
            [.assocMap "originAclAssociations" (main P o inv s).locals.originAclAssociations],
          Event.info "CreateNetworkAclResult" [.str "aclID" acl]],
         Outcome.fatal "ReplaceNetworkAclAssociation" (some err)) := by
  rcases main_cases P o inv s with ⟨hq, _⟩ |
    ⟨subnets, s1, aclID, pre, hds, hd, hpre, horig, hacl, hc⟩
  · have := hq _ h
    simp [Event.isQuiet] at this
  · have hpq : ∀ e ∈ pre, e.isQuiet = true := by
      rw [hpre]
      exact preamble_quiet _ _ _ _ (discoverLoop_quiet _ _ _ _ _)
    rcases hc with ⟨done, a', x, rest, news, err', hes, hl, ht, ho, hn⟩ | ⟨news, hl, hn, hc⟩
    · have hmem := h
      rw [ht] at hmem
      simp only [List.mem_append, List.mem_singleton] at hmem
      have hfail : a = a' ∧ acl = aclID ∧ err = err' := by
        rcases hmem with hm | hm | hm
        · have := hpq _ hm
          simp [Event.isQuiet] at this
        · obtain ⟨_, _, _, _, _, he⟩ := installEvents_mem hm
          cases he
        · simp only [failedRebind, Event.replaceNetworkAclAssociation.injEq,
            Reply.error.injEq] at hm
          exact hm
      obtain ⟨rfl, rfl, rfl⟩ := hfail
      refine ⟨done, x, rest, news, subnets, hacl, hes, hl, ?_, ?_, ?_, hn, ?_⟩
      · rw [ht]
        simp [rebinds_append, rebinds_of_quiet hpq, rebinds_failedRebind]
      · rw [ht]
        simp [← List.append_assoc]
      · rw [ht]
        simp [deletions_append, deletions_of_quiet hpq, deletions_installEvents,
          deletions_failedRebind]
      · unfold report
        rw [ht, ho, hpre, horig]
        simp [preamble, ruleEvents, List.filter_append, isInfo_installEvents,
          isInfo_discoverLoop, failedRebind, Event.isInfo, List.filter_cons]
    · exfalso
      rcases hc with ⟨done, a', x, rest, news', err', hes, hl', ht, ho⟩ |
        ⟨news', reply, hl', ht, ho⟩
      · rw [ht] at hs
        simp [sleeps_append, sleeps_holdEvents] at hs
      · rw [ht] at hs
        simp [sleeps_append, sleeps_holdEvents] at hs

set_option maxRecDepth 100000 in
/-- Witness for the amended C8: the two-ACL scenario with the second rebind
request refused. -/
theorem install_failure_aborts_witness :
    ∃ (done : List (String × String)) (x : String) (rest : List (String × String))
        (news : List String) (subnets : List Subnet),
      (main flaky inOrder (invoke (some 0)) (twoAcls, some 1)).locals.aclID
        = some "xxxxxx" ∧
      inOrder.install.order
          (main flaky inOrder (invoke (some 0)) (twoAcls, some 1)).locals.originAclAssociations
        = done ++ ("a2", x) :: rest ∧
      news.length = done.length ∧
      rebinds (main flaky inOrder (invoke (some 0)) (twoAcls, some 1)).trace =
        rebinds (installEvents "xxxxxx" done news) ++
          [("a2", "xxxxxx", Reply.error "RequestLimitExceeded")] ∧
      (main flaky inOrder (invoke (some 0)) (twoAcls, some 1)).trace.getLast?
        = some (failedRebind "a2" "xxxxxx" "RequestLimitExceeded") ∧
      deletions (main flaky inOrder (invoke (some 0)) (twoAcls, some 1)).trace = [] ∧
      (main flaky inOrder (invoke (some 0)) (twoAcls, some 1)).locals.newAclAssociations
        = recorded [] done news ∧
      report (main flaky inOrder (invoke (some 0)) (twoAcls, some 1)) =
        ([Event.info "DescribeSubnetsResult" [.subnets "Subnets" subnets],
          Event.info "DescribeNetworkAclsResult"
            [.assocMap "originAclAssociations"
              (main flaky inOrder (invoke (some 0))
                (twoAcls, some 1)).locals.originAclAssociations],
          Event.info "CreateNetworkAclResult" [.str "aclID" "xxxxxx"]],
         Outcome.fatal "ReplaceNetworkAclAssociation" (some "RequestLimitExceeded")) :=
  install_failure_aborts flaky inOrder (invoke (some 0)) (twoAcls, some 1)
    "a2" "xxxxxx" "RequestLimitExceeded" (by decide) (by decide)

set_option maxRecDepth 100000 in
/-- C8 fails in its reporting part: on the two-ACL scenario with the second
rebind request refused, the run that rebinds `a1` first and the run that
rebinds `a2` first report exactly the same, although the first completed the
rebind of `a1` (original ACL `acl-a`) and failed on `a2`, and the second
completed the rebind of `a2` (original ACL `acl-b`) and failed on `a1`.  In
these runs the report therefore neither lists the completed rebinds nor
identifies the entry that failed: it consists of the three log records written
before the installation loop and of the error the provider returned, and
these are the same in both runs. -/
theorem install_failure_report_is_blind :
    report (main flaky inOrder (invoke (some 0)) (twoAcls, some 1)) =
        report (main flaky installReversed (invoke (some 0)) (twoAcls, some 1)) ∧
      rebinds (main flaky inOrder (invoke (some 0)) (twoAcls, some 1)).trace =
        [("a1", "xxxxxx", Reply.ok "xxxxxxx"),
         ("a2", "xxxxxx", Reply.error "RequestLimitExceeded")] ∧
      rebinds (main flaky installReversed (invoke (some 0)) (twoAcls, some 1)).trace =
        [("a2", "xxxxxx", Reply.ok "xxxxxxx"),
         ("a1", "xxxxxx", Reply.error "RequestLimitExceeded")] ∧
      (main flaky inOrder (invoke (some 0)) (twoAcls, some 1)).locals.newAclAssociations =
        [("xxxxxxx", "acl-a")] ∧
      (main flaky installReversed (invoke (some 0))
          (twoAcls, some 1)).locals.newAclAssociations =
        [("xxxxxxx", "acl-b")] ∧
      report (main flaky inOrder (invoke (some 0)) (twoAcls, some 1)) =
        ([Event.info "DescribeSubnetsResult" [.subnets "Subnets" [⟨"s1"⟩, ⟨"s2"⟩]],
          Event.info "DescribeNetworkAclsResult"
            [.assocMap "originAclAssociations" [("a1", "acl-a"), ("a2", "acl-b")]],
          Event.info "CreateNetworkAclResult" [.str "aclID" "xxxxxx"]],
         Outcome.fatal "ReplaceNetworkAclAssociation" (some "RequestLimitExceeded")) := by
  decide


/-! ### The hold -/

theorem sleeps_main {σ : Type} (P : Provider σ) (o : Schedule) (inv : Invocation) (s : σ) :
    sleeps (main P o inv s).trace = [] ∨
      sleeps (main P o inv s).trace = [sleepArg (flagParse inv).duration] := by
  rcases main_cases P o inv s with ⟨hq, _⟩ |
    ⟨subnets, s1, aclID, pre, hds, hd, hpre, horig, hacl, hc⟩
  · exact Or.inl (sleeps_of_quiet hq)
  · have hpq : ∀ e ∈ pre, e.isQuiet = true := by
      rw [hpre]
      exact preamble_quiet _ _ _ _ (discoverLoop_quiet _ _ _ _ _)
    rcases hc with ⟨done, a, x, rest, news, err, hes, hl, ht, ho, hn⟩ | ⟨news, hl, hn, hc⟩
    · left
      rw [ht]
      simp [sleeps_append, sleeps_of_quiet hpq, sleeps_installEvents, sleeps_failedRebind]
    · right
      rcases hc with ⟨done, a, x, rest, news', err, hes, hl', ht, ho⟩ |
        ⟨news', reply, hl', ht, ho⟩
      · rw [ht]
        simp [sleeps_append, sleeps_of_quiet hpq, sleeps_installEvents, sleeps_failedRebind,
          sleeps_holdEvents, sleeps_restoreEvents]
      · rw [ht]
        simp [sleeps_append, sleeps_of_quiet hpq, sleeps_installEvents, sleeps_cleanupEvents,
          sleeps_holdEvents, sleeps_restoreEvents]

theorem sleepArg_eq_self_iff (d : Int) (h0 : 0 ≤ d) (h1 : d < 2 ^ 63) :
    sleepArg d = d ↔ d = 0 := by
  constructor
  · intro h
    simp only [sleepArg, wrapInt64, second] at h
    have h2 : (d * 1000000000 + 2 ^ 63) % 2 ^ 64 = d + 2 ^ 63 := by linarith
    have h3 := Int.dvd_sub_of_emod_eq h2
    have h4 : (2 : Int) ^ 64 ∣ 999999999 * d := by
      have e : d * 1000000000 + 2 ^ 63 - (d + 2 ^ 63) = 999999999 * d := by ring
      rwa [e] at h3
    have h5 : (2 : Int) ^ 64 ∣ d := Int.dvd_of_dvd_mul_right_of_gcd_one h4 (by norm_num)
    exact Int.eq_zero_of_abs_lt_dvd h5 (by rw [abs_of_nonneg h0]; linarith)
  · rintro rfl
    simp only [sleepArg, wrapInt64, second]
    norm_num

theorem sleepArg_default : sleepArg (flagParse (invoke none)).duration = 60 * second := by
  simp only [sleepArg, wrapInt64, second, flagParse, invoke, defaultDuration, Option.getD]
  norm_num

theorem sleepArg_one_second : sleepArg (1 * second) = 1000000000 * second := by
  simp only [sleepArg, wrapInt64, second]
  norm_num

theorem sleepArg_ten_seconds : sleepArg (10 * second) = -8446744073709551616 := by
  simp only [sleepArg, wrapInt64, second]
  norm_num

theorem sleepArg_thirty_seconds : sleepArg (30 * second) = -6893488147419103232 := by
  simp only [sleepArg, wrapInt64, second]
  norm_num

set_option maxRecDepth 100000 in
/-- C3: the argument of `time.Sleep` is the duration variable multiplied by
`time.Second`, wrapped to 64 bits.  A run sleeps at most once, and for that
time.  With no `-duration` flag the variable holds 60ns and the sleep lasts 60
seconds, as the claim says.  With a flag value the claim fails: among the
non-negative durations only zero is slept for as given; `-duration 1s` sleeps
for a billion seconds, and `-duration 10s` and `-duration 30s` overflow to a
negative argument. -/
theorem hold_duration_is_multiplied :
    (∀ (σ : Type) (P : Provider σ) (o : Schedule) (inv : Invocation) (s : σ),
      sleeps (main P o inv s).trace = [] ∨
        sleeps (main P o inv s).trace = [sleepArg (flagParse inv).duration]) ∧
      sleepArg (flagParse (invoke none)).duration = 60 * second ∧
      (∀ d : Int, 0 ≤ d → d < 2 ^ 63 → (sleepArg d = d ↔ d = 0)) ∧
      sleepArg (flagParse (invoke (some (1 * second)))).duration = 1000000000 * second ∧
      sleepArg (flagParse (invoke (some (10 * second)))).duration = -8446744073709551616 ∧
      sleepArg (flagParse (invoke (some (30 * second)))).duration = -6893488147419103232 ∧
      sleeps (main cloud inOrder (invoke (some (10 * second))) scenario).trace
        = [-8446744073709551616] :=
  ⟨fun _ P o inv s => sleeps_main P o inv s, sleepArg_default, sleepArg_eq_self_iff,
    sleepArg_one_second, sleepArg_ten_seconds, sleepArg_thirty_seconds,
    (show sleeps (main cloud inOrder (invoke (some (10 * second))) scenario).trace
        = [sleepArg (10 * second)] from by rfl).trans
      (by rw [sleepArg_ten_seconds])⟩

/-! ### The rules of the injected ACL -/

theorem entryCalls_append (t u : List Event) :
    entryCalls (t ++ u) = entryCalls t ++ entryCalls u := by
  simp [entryCalls]

theorem entryCalls_discoverLoop {σ : Type} (P : Provider σ) (vpcID : String)
    (subnets : List Subnet) (m : GoMap) (s : σ) :
    entryCalls (discoverLoop P vpcID subnets m s).trace = [] := by
  unfold entryCalls
  rw [List.filterMap_eq_nil_iff]
  intro e he
  obtain ⟨n, r, rfl⟩ := discoverLoop_events P vpcID subnets m s e he
  rfl

theorem entryCalls_installEvents (aclID : String) (es : List (String × String))
    (news : List String) : entryCalls (installEvents aclID es news) = [] := by
  unfold entryCalls
  rw [List.filterMap_eq_nil_iff]
  intro e he
  obtain ⟨a, x, n, _, _, rfl⟩ := installEvents_mem he
  rfl

theorem entryCalls_restoreEvents (es : List (String × String)) (news : List String) :
    entryCalls (restoreEvents es news) = [] := by
  unfold entryCalls
  rw [List.filterMap_eq_nil_iff]
  intro e he
  obtain ⟨a, x, n, _, _, rfl⟩ := restoreEvents_mem he
  rfl

theorem entryCalls_cleanupEvents (aclID : String) (reply : Reply Unit) :
    entryCalls (cleanupEvents aclID reply) = [] := by
  cases reply <;> simp [entryCalls, cleanupEvents, Event.entryCall]

theorem entryCalls_failedRebind (a acl err : String) :
    entryCalls [failedRebind a acl err] = [] := rfl

theorem entryCalls_holdEvents (g : Config) : entryCalls (holdEvents g) = [] := rfl

theorem entryCalls_installAndRecover {σ : Type} (P : Provider σ) (o : Schedule) (g : Config)
    (aclID : String) (origin : GoMap) (s : σ) :
    entryCalls (installAndRecover P o g aclID origin s).trace = [] ∧
      (installAndRecover P o g aclID origin s).locals.aclID = some aclID := by
  rcases installAndRecover_anatomy P o g aclID origin s with
    ⟨done, a, x, rest, news, err, hes, hl, ht, ho, hloc⟩ | ⟨news, hl, hloc, h⟩
  · rw [ht, hloc]
    simp [entryCalls_append, entryCalls_installEvents, entryCalls_failedRebind]
  · rcases h with ⟨done, a, x, rest, news', err, hes, hl', ht, ho⟩ | ⟨news', reply, hl', ht, ho⟩
    · rw [ht, hloc]
      simp [entryCalls_append, entryCalls_installEvents, entryCalls_restoreEvents,
        entryCalls_failedRebind, entryCalls_holdEvents]
    · rw [ht, hloc]
      simp [entryCalls_append, entryCalls_installEvents, entryCalls_restoreEvents,
        entryCalls_cleanupEvents, entryCalls_holdEvents]

theorem entryCalls_createAndInject {σ : Type} (P : Provider σ) (o : Schedule) (g : Config)
    (origin : GoMap) (s : σ) :
    (entryCalls (createAndInject P o g origin s).trace = [] ∧
      ∀ aclID, Event.createNetworkAcl g.vpcID (.ok aclID) ∉ (createAndInject P o g origin s).trace) ∨
    ∃ aclID, (createAndInject P o g origin s).locals.aclID = some aclID ∧
      Event.createNetworkAcl g.vpcID (.ok aclID) ∈ (createAndInject P o g origin s).trace ∧
      (entryCalls (createAndInject P o g origin s).trace
          = [(engress aclID, Reply.ok ()), (ingress aclID, Reply.ok ())] ∨
        (∃ err, entryCalls (createAndInject P o g origin s).trace
          = [(engress aclID, Reply.error err)]) ∨
        (∃ err, entryCalls (createAndInject P o g origin s).trace
          = [(engress aclID, Reply.ok ()), (ingress aclID, Reply.error err)])) := by
  unfold createAndInject
  split
  · left
    simp [entryCalls, Event.entryCall]
  · rename_i aclID s2 _
    right
    refine ⟨aclID, ?_⟩
    split
    · rename_i err s3 _
      exact ⟨rfl, by simp, Or.inr (Or.inl ⟨err, by simp [entryCalls, Event.entryCall]⟩)⟩
    · split
      · rename_i err s4 _
        exact ⟨rfl, by simp, Or.inr (Or.inr ⟨err, by simp [entryCalls, Event.entryCall]⟩)⟩
      · rename_i s4 _
        obtain ⟨h1, h2⟩ := entryCalls_installAndRecover P o g aclID origin s4
        refine ⟨by simp [Run.after, h2], by simp [Run.after], Or.inl ?_⟩
        simp only [Run.after, entryCalls_append, h1]
        simp [entryCalls, Event.entryCall]

theorem entryCalls_main {σ : Type} (P : Provider σ) (o : Schedule) (inv : Invocation)
    (s : σ) :
    entryCalls (main P o inv s).trace = [] ∨
    ∃ aclID, (main P o inv s).locals.aclID = some aclID ∧
      Event.createNetworkAcl (flagParse inv).vpcID (.ok aclID) ∈ (main P o inv s).trace ∧
      (entryCalls (main P o inv s).trace
          = [(engress aclID, Reply.ok ()), (ingress aclID, Reply.ok ())] ∨
        (∃ err, entryCalls (main P o inv s).trace
          = [(engress aclID, Reply.error err)]) ∨
        (∃ err, entryCalls (main P o inv s).trace
          = [(engress aclID, Reply.ok ()), (ingress aclID, Reply.error err)])) := by
  unfold main
  simp only
  split
  · exact Or.inl rfl
  · split
    · exact Or.inl rfl
    · rename_i subnets s1 hds
      split
      · exact Or.inl rfl
      · split
        · left
          simp only [entryCalls_append, entryCalls_discoverLoop]
          rfl
        · rcases entryCalls_createAndInject P o (flagParse inv)
              (discoverLoop P (flagParse inv).vpcID subnets [] s1).vars
              (discoverLoop P (flagParse inv).vpcID subnets [] s1).state with
            ⟨h, _⟩ | ⟨aclID, h1, h2, h3⟩
          · left
            simp only [Run.after, entryCalls_append, entryCalls_discoverLoop, h]
            rfl
          · right
            have hpre : entryCalls
                ([Event.describeSubnets (flagParse inv).vpcID (flagParse inv).availabilityZone
                    (Reply.ok subnets),
                  Event.info "DescribeSubnetsResult" [LogField.subnets "Subnets" subnets]] ++
                  (discoverLoop P (flagParse inv).vpcID subnets [] s1).trace) = [] := by
              simp only [entryCalls_append, entryCalls_discoverLoop]
              rfl
            refine ⟨aclID, by simp [Run.after, h1], ?_, ?_⟩
            · simp only [Run.after, List.mem_append]
              exact Or.inr h2
            · simp only [Run.after, entryCalls_append, hpre, List.nil_append]
              exact h3

theorem creations_append (t u : List Event) :
    creations (t ++ u) = creations t ++ creations u := by
  simp [creations]

theorem mem_creations {t : List Event} {v : String} {r : Reply String} :
    (v, r) ∈ creations t ↔ Event.createNetworkAcl v r ∈ t := by
  unfold creations
  rw [List.mem_filterMap]
  constructor
  · rintro ⟨e, he, h⟩
    cases e <;> simp_all [Event.creation]
  · intro h
    exact ⟨_, h, rfl⟩

theorem mem_entryCalls {t : List Event} {i : CreateNetworkAclEntryInput} {r : Reply Unit} :
    (i, r) ∈ entryCalls t ↔ Event.createNetworkAclEntry i r ∈ t := by
  unfold entryCalls
  rw [List.mem_filterMap]
  constructor
  · rintro ⟨e, he, h⟩
    cases e <;> simp_all [Event.entryCall]
  · intro h
    exact ⟨_, h, rfl⟩

theorem creations_discoverLoop {σ : Type} (P : Provider σ) (vpcID : String)
    (subnets : List Subnet) (m : GoMap) (s : σ) :
    creations (discoverLoop P vpcID subnets m s).trace = [] := by
  unfold creations
  rw [List.filterMap_eq_nil_iff]
  intro e he
  obtain ⟨n, r, rfl⟩ := discoverLoop_events P vpcID subnets m s e he
  rfl

theorem creations_installEvents (aclID : String) (es : List (String × String))
    (news : List String) : creations (installEvents aclID es news) = [] := by
  unfold creations
  rw [List.filterMap_eq_nil_iff]
  intro e he
  obtain ⟨a, x, n, _, _, rfl⟩ := installEvents_mem he
  rfl

theorem creations_restoreEvents (es : List (String × String)) (news : List String) :
    creations (restoreEvents es news) = [] := by
  unfold creations
  rw [List.filterMap_eq_nil_iff]
  intro e he
  obtain ⟨a, x, n, _, _, rfl⟩ := restoreEvents_mem he
  rfl

theorem creations_cleanupEvents (aclID : String) (reply : Reply Unit) :
    creations (cleanupEvents aclID reply) = [] := by
  cases reply <;> rfl

theorem creations_failedRebind (a acl err : String) :
    creations [failedRebind a acl err] = [] := rfl

theorem creations_holdEvents (g : Config) : creations (holdEvents g) = [] := rfl

theorem creations_installAndRecover {σ : Type} (P : Provider σ) (o : Schedule) (g : Config)
    (aclID : String) (origin : GoMap) (s : σ) :
    creations (installAndRecover P o g aclID origin s).trace = [] := by
  rcases installAndRecover_anatomy P o g aclID origin s with
    ⟨done, a, x, rest, news, err, hes, hl, ht, ho, hloc⟩ | ⟨news, hl, hloc, h⟩
  · rw [ht]
    simp [creations_append, creations_installEvents, creations_failedRebind]
  · rcases h with ⟨done, a, x, rest, news', err, hes, hl', ht, ho⟩ | ⟨news', reply, hl', ht, ho⟩
    · rw [ht]
      simp [creations_append, creations_installEvents, creations_restoreEvents,
        creations_failedRebind, creations_holdEvents]
    · rw [ht]
      simp [creations_append, creations_installEvents, creations_restoreEvents,
        creations_cleanupEvents, creations_holdEvents]

theorem rules_createAndInject {σ : Type} (P : Provider σ) (o : Schedule) (g : Config)
    (origin : GoMap) (s : σ) :
    (∃ err, creations (createAndInject P o g origin s).trace = [(g.vpcID, Reply.error err)] ∧
      entryCalls (createAndInject P o g origin s).trace = []) ∨
    ∃ aclID, creations (createAndInject P o g origin s).trace = [(g.vpcID, Reply.ok aclID)] ∧
      (entryCalls (createAndInject P o g origin s).trace
          = [(engress aclID, Reply.ok ()), (ingress aclID, Reply.ok ())] ∨
        (∃ err, entryCalls (createAndInject P o g origin s).trace
          = [(engress aclID, Reply.error err)]) ∨
        (∃ err, entryCalls (createAndInject P o g origin s).trace
          = [(engress aclID, Reply.ok ()), (ingress aclID, Reply.error err)])) := by
  unfold createAndInject
  split
  · rename_i err s2 _
    exact Or.inl ⟨err, rfl, rfl⟩
  · rename_i aclID s2 _
    right
    refine ⟨aclID, ?_⟩
    split
    · rename_i err s3 _
      exact ⟨rfl, Or.inr (Or.inl ⟨err, rfl⟩)⟩
    · split
      · rename_i err s4 _
        exact ⟨rfl, Or.inr (Or.inr ⟨err, rfl⟩)⟩
      · rename_i s4 _
        have h1 := (entryCalls_installAndRecover P o g aclID origin s4).1
        have h2 := creations_installAndRecover P o g aclID origin s4
        refine ⟨?_, Or.inl ?_⟩
        · simp only [Run.after, creations_append, h2, List.append_nil]
          rfl
        · simp only [Run.after, entryCalls_append, h1, List.append_nil]
          rfl

theorem rules_main {σ : Type} (P : Provider σ) (o : Schedule) (inv : Invocation) (s : σ) :
    (entryCalls (main P o inv s).trace = [] ∧
      ∀ c ∈ creations (main P o inv s).trace, c.2.isOk = false) ∨
    ∃ aclID,
      creations (main P o inv s).trace = [((flagParse inv).vpcID, Reply.ok aclID)] ∧
      (entryCalls (main P o inv s).trace
          = [(engress aclID, Reply.ok ()), (ingress aclID, Reply.ok ())] ∨
        (∃ err, entryCalls (main P o inv s).trace
          = [(engress aclID, Reply.error err)]) ∨
        (∃ err, entryCalls (main P o inv s).trace
          = [(engress aclID, Reply.ok ()), (ingress aclID, Reply.error err)])) := by
  unfold main
  simp only
  split
  · exact Or.inl ⟨rfl, by simp [creations]⟩
  · split
    · exact Or.inl ⟨rfl, by simp [creations, Event.creation]⟩
    · rename_i subnets s1 hds
      split
      · exact Or.inl ⟨rfl, by simp [creations, Event.creation]⟩
      · have hpreE : entryCalls
            ([Event.describeSubnets (flagParse inv).vpcID (flagParse inv).availabilityZone
                (Reply.ok subnets),
              Event.info "DescribeSubnetsResult" [LogField.subnets "Subnets" subnets]] ++
              (discoverLoop P (flagParse inv).vpcID subnets [] s1).trace) = [] := by
          simp only [entryCalls_append, entryCalls_discoverLoop]
          rfl
        have hpreC : creations
            ([Event.describeSubnets (flagParse inv).vpcID (flagParse inv).availabilityZone
                (Reply.ok subnets),
              Event.info "DescribeSubnetsResult" [LogField.subnets "Subnets" subnets]] ++
              (discoverLoop P (flagParse inv).vpcID subnets [] s1).trace) = [] := by
          simp only [creations_append, creations_discoverLoop]
          rfl
        split
        · left
          simp only [hpreE, hpreC]
          exact ⟨trivial, by simp⟩
        · rcases rules_createAndInject P o (flagParse inv)
              (discoverLoop P (flagParse inv).vpcID subnets [] s1).vars
              (discoverLoop P (flagParse inv).vpcID subnets [] s1).state with
            ⟨err, h1, h2⟩ | ⟨aclID, h1, h2⟩
          · left
            simp only [Run.after, entryCalls_append, creations_append, hpreE, hpreC, h1, h2,
              List.nil_append]
            exact ⟨trivial, by simp [Reply.isOk]⟩
          · right
            refine ⟨aclID, ?_, ?_⟩
            · simp only [Run.after, creations_append, hpreC, h1, List.nil_append]
            · simp only [Run.after, entryCalls_append, hpreE, List.nil_append]
              exact h2

theorem parseCidr_all : parseCidr "0.0.0.0/0" = some (0, 0) := by decide

theorem covers_engress (aclID : String) (p : Packet) : (engress aclID).covers p = true := by
  have h : inCidr "0.0.0.0/0" p.address = true := by
    unfold inCidr
    rw [parseCidr_all]
    simp only [decide_eq_true_eq]
    rw [Nat.zero_div]
    exact Nat.div_eq_of_lt (Nat.mod_lt _ (by norm_num))
  simp [CreateNetworkAclEntryInput.covers, engress, h]

theorem covers_ingress (aclID : String) (p : Packet) : (ingress aclID).covers p = true := by
  have h : inCidr "0.0.0.0/0" p.address = true := by
    unfold inCidr
    rw [parseCidr_all]
    simp only [decide_eq_true_eq]
    rw [Nat.zero_div]
    exact Nat.div_eq_of_lt (Nat.mod_lt _ (by norm_num))
  simp [CreateNetworkAclEntryInput.covers, ingress, h]

/-- C4 (deny-all rules): in every run in which `CreateNetworkAcl` succeeds,
returning `aclID`, and no `CreateNetworkAclEntry` call fails, that is the only
`CreateNetworkAcl` call of the run and exactly two `CreateNetworkAclEntry`
requests are issued, both successful and both for the ACL `aclID`: one with
`Egress` true and one with `Egress` false, both with CIDR block `0.0.0.0/0`
and action `deny`, under the distinct rule numbers 100 and 101, neither of
them 32767.  Both rules apply to every packet, of whatever address, protocol
and port: the requests are for protocol `-1`, for which the port range they
carry (53-53) restricts nothing. -/
theorem deny_all_rules {σ : Type} (P : Provider σ) (o : Schedule) (inv : Invocation) (s : σ)
    (v aclID : String)
    (hc : Event.createNetworkAcl v (.ok aclID) ∈ (main P o inv s).trace)
    (he : ∀ i err, Event.createNetworkAclEntry i (.error err) ∉ (main P o inv s).trace) :
    creations (main P o inv s).trace = [((flagParse inv).vpcID, Reply.ok aclID)] ∧
    entryCalls (main P o inv s).trace =
      [(engress aclID, Reply.ok ()), (ingress aclID, Reply.ok ())] ∧
    (engress aclID).networkAclId = aclID ∧ (ingress aclID).networkAclId = aclID ∧
    (engress aclID).egress = true ∧ (ingress aclID).egress = false ∧
    (engress aclID).cidrBlock = "0.0.0.0/0" ∧ (ingress aclID).cidrBlock = "0.0.0.0/0" ∧
    (engress aclID).ruleAction = "deny" ∧ (ingress aclID).ruleAction = "deny" ∧
    (engress aclID).protocol = "-1" ∧ (ingress aclID).protocol = "-1" ∧
    (∀ p : Packet, (engress aclID).covers p = true ∧ (ingress aclID).covers p = true) ∧
    (engress aclID).ruleNumber ≠ (ingress aclID).ruleNumber ∧
    (engress aclID).ruleNumber ≠ 32767 ∧ (ingress aclID).ruleNumber ≠ 32767 := by
  have hfields : (engress aclID).ruleNumber ≠ (ingress aclID).ruleNumber ∧
      (engress aclID).ruleNumber ≠ 32767 ∧ (ingress aclID).ruleNumber ≠ 32767 := by
    simp [engress, ingress]
  rcases rules_main P o inv s with ⟨_, hno⟩ | ⟨aclID', hcr, hen⟩
  · have := hno _ (mem_creations.2 hc)
    simp [Reply.isOk] at this
  · have hmem := mem_creations.2 hc
    rw [hcr] at hmem
    simp only [List.mem_singleton, Prod.mk.injEq, Reply.ok.injEq] at hmem
    obtain ⟨_, rfl⟩ := hmem
    have hentries : entryCalls (main P o inv s).trace =
        [(engress aclID, Reply.ok ()), (ingress aclID, Reply.ok ())] := by
      rcases hen with h | ⟨err, h⟩ | ⟨err, h⟩
      · exact h
      · exact absurd (mem_entryCalls.1 (by rw [h]; simp)) (he (engress aclID) err)
      · exact absurd (mem_entryCalls.1 (by rw [h]; simp)) (he (ingress aclID) err)
    exact ⟨hcr, hentries, rfl, rfl, rfl, rfl, rfl, rfl, rfl, rfl, rfl, rfl,
      fun p => ⟨covers_engress aclID p, covers_ingress aclID p⟩, hfields⟩

set_option maxRecDepth 100000 in
/-- Witness for C4: the scenario of the specification, where the injected ACL
gets the id `xxxxxxxxx`. -/
theorem deny_all_rules_witness :
    creations (main cloud inOrder (invoke (some 0)) scenario).trace =
      [((flagParse (invoke (some 0))).vpcID, Reply.ok "xxxxxxxxx")] ∧
    entryCalls (main cloud inOrder (invoke (some 0)) scenario).trace =
      [(engress "xxxxxxxxx", Reply.ok ()), (ingress "xxxxxxxxx", Reply.ok ())] ∧
    (engress "xxxxxxxxx").networkAclId = "xxxxxxxxx" ∧
    (ingress "xxxxxxxxx").networkAclId = "xxxxxxxxx" ∧
    (engress "xxxxxxxxx").egress = true ∧ (ingress "xxxxxxxxx").egress = false ∧
    (engress "xxxxxxxxx").cidrBlock = "0.0.0.0/0" ∧
    (ingress "xxxxxxxxx").cidrBlock = "0.0.0.0/0" ∧
    (engress "xxxxxxxxx").ruleAction = "deny" ∧ (ingress "xxxxxxxxx").ruleAction = "deny" ∧
    (engress "xxxxxxxxx").protocol = "-1" ∧ (ingress "xxxxxxxxx").protocol = "-1" ∧
    (∀ p : Packet, (engress "xxxxxxxxx").covers p = true ∧
      (ingress "xxxxxxxxx").covers p = true) ∧
    (engress "xxxxxxxxx").ruleNumber ≠ (ingress "xxxxxxxxx").ruleNumber ∧
    (engress "xxxxxxxxx").ruleNumber ≠ 32767 ∧ (ingress "xxxxxxxxx").ruleNumber ≠ 32767 :=
  deny_all_rules cloud inOrder (invoke (some 0)) scenario "v1" "xxxxxxxxx"
    (by decide) (by
      intro i err h
      have := mem_entryCalls.2 h
      revert this
      have hcalls : entryCalls (main cloud inOrder (invoke (some 0)) scenario).trace =
          [(engress "xxxxxxxxx", Reply.ok ()), (ingress "xxxxxxxxx", Reply.ok ())] := by
        decide
      rw [hcalls]
      simp)

set_option maxRecDepth 100000 in
/-- The rule semantics distinguishes rules: a rule for TCP with the port range
53-53 applies to port 53 and not to port 80, while the same request with
protocol `-1`, as `main` issues it, applies to both; and a rule for
`10.0.0.0/8` does not apply to an address outside that block. -/
theorem covers_examples :
    ({ engress "acl" with protocol := "6" }).covers ⟨0, 6, 53⟩ = true ∧
    ({ engress "acl" with protocol := "6" }).covers ⟨0, 6, 80⟩ = false ∧
    ({ engress "acl" with protocol := "6" }).covers ⟨0, 17, 53⟩ = false ∧
    (engress "acl").covers ⟨0, 6, 80⟩ = true ∧
    (engress "acl").covers ⟨0, 17, 53⟩ = true ∧
    ({ engress "acl" with cidrBlock := "10.0.0.0/8" }).covers ⟨167772161, 6, 53⟩ = true ∧
    ({ engress "acl" with cidrBlock := "10.0.0.0/8" }).covers ⟨3232235777, 6, 53⟩ = false := by
  decide

/-! ### Maps -/

theorem mem_mapKeys_mapSet (m : GoMap) (k v a : String) :
    a ∈ mapKeys (mapSet m k v) ↔ a = k ∨ a ∈ mapKeys m := by
  induction m with
  | nil => simp [mapSet, mapKeys]
  | cons p rest ih =>
    obtain ⟨k', v'⟩ := p
    unfold mapSet
    split
    · rename_i h
      subst h
      simp [mapKeys]
    · simp only [mapKeys, List.map_cons, List.mem_cons] at ih ⊢
      rw [ih]
      tauto

theorem mapSet_of_not_mem (m : GoMap) (k v : String) (h : k ∉ mapKeys m) :
    mapSet m k v = m ++ [(k, v)] := by
  induction m with
  | nil => rfl
  | cons p rest ih =>
    obtain ⟨k', v'⟩ := p
    simp only [mapKeys, List.map_cons, List.mem_cons, not_or] at h
    unfold mapSet
    rw [if_neg (fun e => h.1 e.symm)]
    rw [ih (by simpa [mapKeys] using h.2)]
    rfl

theorem nodup_mapSet (m : GoMap) (k v : String) (h : (mapKeys m).Nodup) :
    (mapKeys (mapSet m k v)).Nodup := by
  induction m with
  | nil => simp [mapSet, mapKeys]
  | cons p rest ih =>
    obtain ⟨k', v'⟩ := p
    simp only [mapKeys, List.map_cons, List.nodup_cons] at h
    unfold mapSet
    split
    · rename_i hk
      subst hk
      simpa [mapKeys] using h
    · rename_i hk
      have := ih h.2
      simp only [mapKeys, List.map_cons, List.nodup_cons]
      refine ⟨?_, this⟩
      intro hmem
      have := (mem_mapKeys_mapSet rest k v k').1 hmem
      rcases this with e | e
      · exact hk e
      · exact h.1 e

theorem mem_mapSet (m : GoMap) (k v a x : String) (h : (mapKeys m).Nodup) :
    (a, x) ∈ mapSet m k v ↔ (a = k ∧ x = v) ∨ (a ≠ k ∧ (a, x) ∈ m) := by
  induction m with
  | nil => simp [mapSet]
  | cons p rest ih =>
    obtain ⟨k', v'⟩ := p
    simp only [mapKeys, List.map_cons, List.nodup_cons] at h
    unfold mapSet
    split
    · rename_i hk
      subst hk
      simp only [List.mem_cons, Prod.mk.injEq]
      constructor
      · rintro (⟨rfl, rfl⟩ | hm)
        · exact Or.inl ⟨rfl, rfl⟩
        · right
          refine ⟨?_, Or.inr hm⟩
          rintro rfl
          exact h.1 (List.mem_map_of_mem Prod.fst hm)
      · rintro (⟨rfl, rfl⟩ | ⟨hne, (⟨rfl, rfl⟩ | hm)⟩)
        · exact Or.inl ⟨rfl, rfl⟩
        · exact absurd rfl hne
        · exact Or.inr hm
    · rename_i hk
      simp only [List.mem_cons, Prod.mk.injEq]
      rw [ih h.2]
      constructor
      · rintro (⟨rfl, rfl⟩ | ⟨rfl, rfl⟩ | ⟨hne, hm⟩)
        · exact Or.inr ⟨hk, Or.inl ⟨rfl, rfl⟩⟩
        · exact Or.inl ⟨rfl, rfl⟩
        · exact Or.inr ⟨hne, Or.inr hm⟩
      · rintro (⟨rfl, rfl⟩ | ⟨hne, (⟨rfl, rfl⟩ | hm)⟩)
        · exact Or.inr (Or.inl ⟨rfl, rfl⟩)
        · exact Or.inl ⟨rfl, rfl⟩
        · exact Or.inr (Or.inr ⟨hne, hm⟩)

/-! ### The checkpoint -/

theorem checkpoint_nodup (l : List NetworkAclAssociation) :
    ∀ m : GoMap, (mapKeys m).Nodup → (mapKeys (checkpoint m l)).Nodup := by
  induction l with
  | nil => intro m h; exact h
  | cons q l ih =>
    intro m h
    exact ih _ (nodup_mapSet m _ _ h)

theorem checkpoint_keys (l : List NetworkAclAssociation) :
    ∀ (m : GoMap) (a : String),
      a ∈ mapKeys (checkpoint m l) ↔
        a ∈ mapKeys m ∨ ∃ ass ∈ l, ass.networkAclAssociationId = a := by
  induction l with
  | nil => intro m a; simp [checkpoint]
  | cons q l ih =>
    intro m a
    have := ih (mapSet m q.networkAclAssociationId q.networkAclId) a
    simp only [checkpoint, List.foldl_cons] at this ⊢
    rw [this, mem_mapKeys_mapSet]
    simp only [List.mem_cons, exists_eq_or_imp]
    constructor
    · rintro ((h | h) | h)
      · exact Or.inr (Or.inl h.symm)
      · exact Or.inl h
      · exact Or.inr (Or.inr h)
    · rintro (h | h | h)
      · exact Or.inl (Or.inr h)
      · exact Or.inl (Or.inl h.symm)
      · exact Or.inr h

theorem checkpoint_sound (l : List NetworkAclAssociation) :
    ∀ (m : GoMap) (a x : String), (mapKeys m).Nodup → (a, x) ∈ checkpoint m l →
      (a, x) ∈ m ∨ ∃ ass ∈ l, ass.networkAclAssociationId = a ∧ ass.networkAclId = x := by
  induction l with
  | nil => intro m a x _ h; exact Or.inl h
  | cons q l ih =>
    intro m a x hm h
    have := ih (mapSet m q.networkAclAssociationId q.networkAclId) a x
      (nodup_mapSet m _ _ hm) h
    rcases this with h' | ⟨ass, hass, h1, h2⟩
    · rw [mem_mapSet m _ _ _ _ hm] at h'
      rcases h' with ⟨rfl, rfl⟩ | ⟨_, h'⟩
      · exact Or.inr ⟨q, by simp, rfl, rfl⟩
      · exact Or.inl h'
    · exact Or.inr ⟨ass, by simp [hass], h1, h2⟩

theorem checkpoint_keeps (l : List NetworkAclAssociation) :
    ∀ (m : GoMap) (a x : String), (mapKeys m).Nodup → (a, x) ∈ m →
      (∀ p ∈ l, p.networkAclAssociationId = a → p.networkAclId = x) →
      (a, x) ∈ checkpoint m l := by
  induction l with
  | nil => intro m a x _ h _; exact h
  | cons q l ih =>
    intro m a x hm h hl
    refine ih _ a x (nodup_mapSet m _ _ hm) ?_ (fun p hp => hl p (by simp [hp]))
    rw [mem_mapSet m _ _ _ _ hm]
    by_cases e : a = q.networkAclAssociationId
    · exact Or.inl ⟨e, (hl q (by simp) e.symm).symm⟩
    · exact Or.inr ⟨e, h⟩

theorem checkpoint_complete_of_coherent (l : List NetworkAclAssociation) :
    ∀ (m : GoMap), (mapKeys m).Nodup →
      (∀ p ∈ l, ∀ q ∈ l, p.networkAclAssociationId = q.networkAclAssociationId →
        p.networkAclId = q.networkAclId) →
      ∀ ass ∈ l, (ass.networkAclAssociationId, ass.networkAclId) ∈ checkpoint m l := by
  induction l with
  | nil => intro m _ _ ass h; simp at h
  | cons q l ih =>
    intro m hm hco ass hass
    simp only [List.mem_cons] at hass
    rcases hass with rfl | hass
    · refine checkpoint_keeps l _ _ _ (nodup_mapSet m _ _ hm) ?_ ?_
      · rw [mem_mapSet m _ _ _ _ hm]
        exact Or.inl ⟨rfl, rfl⟩
      · intro p hp e
        exact hco p (by simp [hp]) ass (by simp) e
    · exact ih _ (nodup_mapSet m _ _ hm)
        (fun p hp q' hq => hco p (by simp [hp]) q' (by simp [hq])) ass hass

theorem recordAssociations_eq (subnetID : String) (acls : List NetworkAcl) (m : GoMap) :
    recordAssociations subnetID acls m =
      checkpoint m ((acls.flatMap (fun acl => acl.associations)).filter
        (fun ass => ass.subnetId = subnetID)) := by
  have inner : ∀ (l : List NetworkAclAssociation) (m : GoMap),
      l.foldl (fun m ass =>
        if ass.subnetId = subnetID then mapSet m ass.networkAclAssociationId ass.networkAclId
        else m) m = checkpoint m (l.filter (fun ass => ass.subnetId = subnetID)) := by
    intro l
    induction l with
    | nil => intro m; rfl
    | cons q l ih =>
      intro m
      by_cases h : q.subnetId = subnetID
      · simp [List.filter_cons, h, checkpoint, ih]
      · simp [List.filter_cons, h, ih]
  induction acls generalizing m with
  | nil => rfl
  | cons acl acls ih =>
    unfold recordAssociations at ih ⊢
    simp only [List.foldl_cons, List.flatMap_cons, List.filter_append]
    rw [ih, inner]
    simp [checkpoint, List.foldl_append]

theorem discoverLoop_vars {σ : Type} (P : Provider σ) (vpcID : String) :
    ∀ (subnets : List Subnet) (m : GoMap) (s : σ),
      (discoverLoop P vpcID subnets m s).vars =
        checkpoint m (discovered (discoverLoop P vpcID subnets m s).trace) := by
  intro subnets
  induction subnets with
  | nil => intro m s; rfl
  | cons sn rest ih =>
    intro m s
    unfold discoverLoop
    split
    · simp [discovered, Event.matching, checkpoint]
    · rename_i acls s' _
      simp only [Stage.after]
      rw [ih, recordAssociations_eq]
      simp [discovered, Event.matching, checkpoint, List.foldl_append]

theorem discoverLoop_queried {σ : Type} (P : Provider σ) (vpcID : String) :
    ∀ (subnets : List Subnet) (m : GoMap) (s : σ),
      ((discoverLoop P vpcID subnets m s).err = none →
        queried (discoverLoop P vpcID subnets m s).trace
          = subnets.map (fun sn => sn.subnetId)) ∧
      (∀ err, (discoverLoop P vpcID subnets m s).err = some err →
        ∃ n, Event.describeNetworkAcls vpcID n (.error err) ∈
          (discoverLoop P vpcID subnets m s).trace) := by
  intro subnets
  induction subnets with
  | nil => intro m s; exact ⟨fun _ => rfl, fun err h => by simp [discoverLoop] at h⟩
  | cons sn rest ih =>
    intro m s
    unfold discoverLoop
    split
    · rename_i err s' _
      refine ⟨fun h => by simp at h, fun err' h => ?_⟩
      simp only [Option.some.injEq] at h
      subst h
      exact ⟨sn.subnetId, by simp⟩
    · rename_i acls s' _
      obtain ⟨h1, h2⟩ := ih (recordAssociations sn.subnetId acls m) s'
      refine ⟨fun h => ?_, fun err h => ?_⟩
      · have := h1 h
        simp only [Stage.after, queried] at this ⊢
        simp [this]
      · obtain ⟨n, hn⟩ := h2 err h
        exact ⟨n, by simp [Stage.after, hn]⟩


theorem discovered_of_noDescribe {t : List Event} (h : ∀ e ∈ t, e.isDescribeAcls = false) :
    discovered t = [] ∧ queried t = [] := by
  constructor
  · unfold discovered
    rw [List.flatMap_eq_nil_iff]
    intro e he
    have := h e he
    cases e <;> simp_all [Event.isDescribeAcls, Event.matching]
  · unfold queried
    rw [List.filterMap_eq_nil_iff]
    intro e he
    have := h e he
    cases e <;> simp_all [Event.isDescribeAcls]

theorem discovered_append (t u : List Event) :
    discovered (t ++ u) = discovered t ++ discovered u := by
  simp [discovered]

theorem queried_append (t u : List Event) : queried (t ++ u) = queried t ++ queried u := by
  simp [queried]

theorem installAndRecover_noDescribe {σ : Type} (P : Provider σ) (o : Schedule) (g : Config)
    (aclID : String) (origin : GoMap) (s : σ) :
    (∀ e ∈ (installAndRecover P o g aclID origin s).trace, e.isDescribeAcls = false) ∧
      (installAndRecover P o g aclID origin s).locals.originAclAssociations = origin := by
  have hi : ∀ (es : List (String × String)) (news : List String),
      ∀ e ∈ installEvents aclID es news, e.isDescribeAcls = false := by
    intro es news e he
    obtain ⟨_, _, _, _, _, rfl⟩ := installEvents_mem he
    rfl
  have hr : ∀ (es : List (String × String)) (news : List String),
      ∀ e ∈ restoreEvents es news, e.isDescribeAcls = false := by
    intro es news e he
    obtain ⟨_, _, _, _, _, rfl⟩ := restoreEvents_mem he
    rfl
  have hh : ∀ e ∈ holdEvents g, e.isDescribeAcls = false := by
    intro e he
    simp only [holdEvents, List.mem_cons, List.mem_singleton, List.not_mem_nil, or_false] at he
    rcases he with rfl | rfl | rfl | rfl <;> rfl
  have hc : ∀ reply, ∀ e ∈ cleanupEvents aclID reply, e.isDescribeAcls = false := by
    intro reply e he
    cases reply <;>
      simp only [cleanupEvents, List.mem_cons, List.mem_singleton, List.not_mem_nil,
        or_false] at he
    · rcases he with rfl | rfl | rfl <;> rfl
    · rcases he with rfl | rfl <;> rfl
  rcases installAndRecover_anatomy P o g aclID origin s with
    ⟨done, a, x, rest, news, err, hes, hl, ht, ho, hloc⟩ | ⟨news, hl, hloc, h⟩
  · refine ⟨?_, by rw [hloc]⟩
    rw [ht]
    intro e he
    simp only [List.mem_append, List.mem_singleton] at he
    rcases he with he | rfl
    · exact hi _ _ e he
    · rfl
  · refine ⟨?_, by rw [hloc]⟩
    rcases h with ⟨done, a, x, rest, news', err, hes, hl', ht, ho⟩ | ⟨news', reply, hl', ht, ho⟩
    · rw [ht]
      intro e he
      simp only [List.mem_append, List.mem_singleton] at he
      rcases he with he | he | he | rfl
      · exact hi _ _ e he
      · exact hh e he
      · exact hr _ _ e he
      · rfl
    · rw [ht]
      intro e he
      simp only [List.mem_append] at he
      rcases he with he | he | he | he
      · exact hi _ _ e he
      · exact hh e he
      · exact hr _ _ e he
      · exact hc _ e he

theorem createAndInject_noDescribe {σ : Type} (P : Provider σ) (o : Schedule) (g : Config)
    (origin : GoMap) (s : σ) :
    (∀ e ∈ (createAndInject P o g origin s).trace, e.isDescribeAcls = false) ∧
      (createAndInject P o g origin s).locals.originAclAssociations = origin := by
  rcases createAndInject_anatomy P o g origin s with ⟨hq, ho, _⟩ | ⟨aclID, s4, hc⟩
  · refine ⟨?_, ho⟩
    intro e he
    exact (hq e he).2
  · rw [hc]
    obtain ⟨h1, h2⟩ := installAndRecover_noDescribe P o g aclID origin s4
    refine ⟨?_, by simp [Run.after, h2]⟩
    intro e he
    simp only [Run.after, ruleEvents, List.mem_append, List.mem_cons, List.not_mem_nil,
      or_false] at he
    rcases he with (rfl | rfl | rfl | rfl | rfl) | he
    · rfl
    · rfl
    · rfl
    · rfl
    · rfl
    · exact h1 e he

theorem origin_main {σ : Type} (P : Provider σ) (o : Schedule) (inv : Invocation) (s : σ) :
    (main P o inv s).locals.originAclAssociations =
        checkpoint [] (discovered (main P o inv s).trace) ∧
      (∀ subnets,
        (main P o inv s).trace.head? =
          some (Event.describeSubnets (flagParse inv).vpcID (flagParse inv).availabilityZone
            (.ok subnets)) →
        (∀ v n err, Event.describeNetworkAcls v n (.error err) ∉ (main P o inv s).trace) →
        queried (main P o inv s).trace = subnets.map (fun sn => sn.subnetId)) := by
  unfold main
  simp only
  split
  · exact ⟨rfl, fun subnets h => by simp at h⟩
  · split
    · exact ⟨rfl, fun subnets h => by simp at h⟩
    · rename_i subnets s1 hds
      split
      · rename_i hlen
        refine ⟨rfl, fun subnets' h _ => ?_⟩
        simp only [List.head?_cons, Option.some.injEq, Event.describeSubnets.injEq,
          Reply.ok.injEq, true_and] at h
        subst h
        rw [List.length_eq_zero] at hlen
        subst hlen
        rfl
      · split
        · rename_i err hd
          refine ⟨?_, fun subnets' h hno => ?_⟩
          · simp only [discovered_append]
            rw [discoverLoop_vars]
            rfl
          · exfalso
            obtain ⟨n, hn⟩ := (discoverLoop_queried P (flagParse inv).vpcID subnets [] s1).2
              err hd
            exact hno (flagParse inv).vpcID n err (by simp [hn])
        · rename_i hd
          obtain ⟨h1, h2⟩ := createAndInject_noDescribe P o (flagParse inv)
            (discoverLoop P (flagParse inv).vpcID subnets [] s1).vars
            (discoverLoop P (flagParse inv).vpcID subnets [] s1).state
          obtain ⟨h3, h4⟩ := discovered_of_noDescribe h1
          refine ⟨?_, fun subnets' h _ => ?_⟩
          · simp only [Run.after, discovered_append, h3, h2, List.append_nil]
            rw [discoverLoop_vars]
            rfl
          · simp only [Run.after, List.cons_append, List.head?_cons, Option.some.injEq,
              Event.describeSubnets.injEq, Reply.ok.injEq, true_and] at h
            subst h
            simp only [Run.after, queried_append, h4, List.append_nil]
            rw [(discoverLoop_queried P (flagParse inv).vpcID subnets [] s1).1 hd]
            rfl

/-- C6 (checkpoint completeness): at the end of every run the keys of
`originAclAssociations` are distinct and are exactly the ids of the
associations that the `DescribeNetworkAcls` replies list for the subnet queried;
every entry maps such an association id to the ACL id of an association
listed under that id; and when the replies never list one association id with
two different ACL ids, every such association has its entry, mapped to its ACL
id.  Associations listed for other subnets are not among those recorded.
When no `DescribeNetworkAcls` call fails, the subnets queried are exactly the
subnets that `DescribeSubnets` returned, in order. -/
theorem checkpoint_complete {σ : Type} (P : Provider σ) (o : Schedule) (inv : Invocation)
    (s : σ) :
    (mapKeys (main P o inv s).locals.originAclAssociations).Nodup ∧
      (∀ a, a ∈ mapKeys (main P o inv s).locals.originAclAssociations ↔
        ∃ ass ∈ discovered (main P o inv s).trace, ass.networkAclAssociationId = a) ∧
      (∀ a acl, (a, acl) ∈ (main P o inv s).locals.originAclAssociations →
        ∃ ass ∈ discovered (main P o inv s).trace,
          ass.networkAclAssociationId = a ∧ ass.networkAclId = acl) ∧
      ((∀ p ∈ discovered (main P o inv s).trace, ∀ q ∈ discovered (main P o inv s).trace,
          p.networkAclAssociationId = q.networkAclAssociationId →
            p.networkAclId = q.networkAclId) →
        ∀ ass ∈ discovered (main P o inv s).trace,
          (ass.networkAclAssociationId, ass.networkAclId) ∈
            (main P o inv s).locals.originAclAssociations) ∧
      (∀ ass, ass ∈ discovered (main P o inv s).trace ↔
        ∃ v n acls acl, Event.describeNetworkAcls v n (.ok acls) ∈ (main P o inv s).trace ∧
          acl ∈ acls ∧ ass ∈ acl.associations ∧ ass.subnetId = n) ∧
      (∀ subnets,
        (main P o inv s).trace.head? =
          some (Event.describeSubnets (flagParse inv).vpcID (flagParse inv).availabilityZone
            (.ok subnets)) →
        (∀ v n err, Event.describeNetworkAcls v n (.error err) ∉ (main P o inv s).trace) →
        queried (main P o inv s).trace = subnets.map (fun sn => sn.subnetId)) := by
  obtain ⟨h1, h2⟩ := origin_main P o inv s
  refine ⟨?_, ?_, ?_, ?_, ?_, h2⟩
  · rw [h1]
    exact checkpoint_nodup _ [] (by simp [mapKeys])
  · intro a
    rw [h1, checkpoint_keys]
    simp [mapKeys]
  · intro a acl h
    rw [h1] at h
    rcases checkpoint_sound _ [] a acl (by simp [mapKeys]) h with h | h
    · simp at h
    · exact h
  · intro hco ass hass
    rw [h1]
    exact checkpoint_complete_of_coherent _ [] (by simp [mapKeys]) hco ass hass
  · intro ass
    unfold discovered
    rw [List.mem_flatMap]
    constructor
    · rintro ⟨e, he, hm⟩
      cases e with
      | describeNetworkAcls v n reply =>
        cases reply with
        | ok acls =>
          simp only [Event.matching, List.mem_filter, List.mem_flatMap,
            decide_eq_true_eq] at hm
          obtain ⟨⟨acl, hacl, hass⟩, hsub⟩ := hm
          exact ⟨v, n, acls, acl, he, hacl, hass, hsub⟩
        | error err => simp [Event.matching] at hm
      | _ => simp [Event.matching] at hm
    · rintro ⟨v, n, acls, acl, he, hacl, hass, hsub⟩
      refine ⟨_, he, ?_⟩
      simp only [Event.matching, List.mem_filter, List.mem_flatMap, decide_eq_true_eq]
      exact ⟨⟨acl, hacl, hass⟩, hsub⟩


/-! ### Fresh association ids -/

theorem freshRebinds_append_of_noRebind (pre : List Event) :
    ∀ (seen : List String) (t : List Event), (∀ e ∈ pre, e.rebind = none) →
      (freshRebinds seen (pre ++ t) ↔ freshRebinds (seen ++ pre.flatMap Event.issued) t) := by
  induction pre with
  | nil => intro seen t _; simp
  | cons e pre ih =>
    intro seen t h
    have he : e.rebind = none := h e (by simp)
    have hfresh : e.freshIn seen := by
      cases e <;> simp_all [Event.rebind, Event.freshIn]
    have hrec := ih (seen ++ e.issued) t (fun e' he' => h e' (by simp [he']))
    rw [List.append_assoc] at hrec
    rw [List.cons_append, List.flatMap_cons]
    show (e.freshIn seen ∧ freshRebinds (seen ++ e.issued) (pre ++ t)) ↔ _
    rw [hrec]
    exact and_iff_right hfresh

theorem rebind_none_of_quiet {t : List Event} (h : ∀ e ∈ t, e.isQuiet = true) :
    ∀ e ∈ t, e.rebind = none := by
  intro e he
  have := h e he
  cases e <;> simp_all [Event.isQuiet, Event.rebind]

theorem freshRebinds_installEvents (aclID : String) (es : List (String × String)) :
    ∀ (seen : List String) (news : List String) (u : List Event),
      news.length = es.length → freshRebinds seen (installEvents aclID es news ++ u) →
      news.Nodup ∧ (∀ n ∈ news, n ∉ seen) ∧ freshRebinds (seen ++ news) u := by
  induction es with
  | nil =>
    intro seen news u hl hf
    have : news = [] := List.length_eq_zero.1 hl
    subst this
    simpa [installEvents] using hf
  | cons p es ih =>
    intro seen news u hl hf
    cases news with
    | nil => simp at hl
    | cons n news =>
      simp only [installEvents, List.zipWith_cons_cons, List.cons_append, freshRebinds,
        Event.freshIn, Event.issued] at hf
      obtain ⟨hn, hrest⟩ := hf
      obtain ⟨h1, h2, h3⟩ := ih (seen ++ [n]) news u (by simpa using hl) hrest
      refine ⟨?_, ?_, ?_⟩
      · rw [List.nodup_cons]
        exact ⟨fun hmem => h2 n hmem (by simp), h1⟩
      · intro n' hn'
        simp only [List.mem_cons] at hn'
        rcases hn' with rfl | hn'
        · exact hn
        · exact fun hs => h2 n' hn' (by simp [hs])
      · simpa [List.append_assoc] using h3

theorem issued_of_discovered {t : List Event} {ass : NetworkAclAssociation}
    (h : ass ∈ discovered t) : ass.networkAclAssociationId ∈ t.flatMap Event.issued := by
  unfold discovered at h
  rw [List.mem_flatMap] at h ⊢
  obtain ⟨e, he, hm⟩ := h
  refine ⟨e, he, ?_⟩
  cases e with
  | describeNetworkAcls v n reply =>
    cases reply with
    | ok acls =>
      simp only [Event.matching, List.mem_filter] at hm
      simp only [Event.issued, List.mem_map]
      exact ⟨ass, hm.1, rfl⟩
    | error err => simp [Event.matching] at hm
  | _ => simp [Event.matching] at hm

theorem recorded_eq_zip (es : List (String × String)) :
    ∀ (m : GoMap) (news : List String), news.length = es.length → news.Nodup →
      (∀ n ∈ news, n ∉ mapKeys m) →
      recorded m es news = m ++ List.zip news (es.map Prod.snd) := by
  induction es with
  | nil =>
    intro m news hl _ _
    have : news = [] := List.length_eq_zero.1 hl
    subst this
    simp [recorded]
  | cons p es ih =>
    intro m news hl hnd hm
    cases news with
    | nil => simp at hl
    | cons n news =>
      rw [List.nodup_cons] at hnd
      have hn : n ∉ mapKeys m := hm n (by simp)
      have := ih (mapSet m n p.2) news (by simpa using hl) hnd.2 (by
        intro n' hn' hmem
        rw [mem_mapKeys_mapSet] at hmem
        rcases hmem with rfl | hmem
        · exact hnd.1 hn'
        · exact hm n' (by simp [hn']) hmem)
      simp only [recorded, List.map_cons, List.zip_cons_cons, List.foldl_cons] at this ⊢
      rw [this, mapSet_of_not_mem m n p.2 hn]
      simp

theorem map_fst_rebinds_installEvents (aclID : String) (es : List (String × String))
    (news : List String) (h : news.length = es.length) :
    (rebinds (installEvents aclID es news)).map (fun c => c.1) = es.map Prod.fst := by
  rw [rebinds_installEvents]
  induction es generalizing news with
  | nil => simp
  | cons p es ih =>
    cases news with
    | nil => simp at h
    | cons n news => simp [ih news (by simpa using h)]

theorem map_fst_rebinds_restoreEvents (es : List (String × String))
    (news : List String) (h : news.length = es.length) :
    (rebinds (restoreEvents es news)).map (fun c => c.1) = es.map Prod.fst := by
  rw [rebinds_restoreEvents]
  induction es generalizing news with
  | nil => simp
  | cons p es ih =>
    cases news with
    | nil => simp at h
    | cons n news => simp [ih news (by simpa using h)]

theorem mem_rebinds_restoreEvents {es : List (String × String)} {news : List String}
    {c : String × String × Reply String} (h : c ∈ rebinds (restoreEvents es news)) :
    (c.1, c.2.1) ∈ es := by
  obtain ⟨a, acl, r⟩ := c
  rw [mem_rebinds] at h
  obtain ⟨a', x, n, hm, _, he⟩ := restoreEvents_mem h
  cases he
  exact hm

theorem mapKeys_zip (news : List String) (xs : List String) (h : news.length = xs.length) :
    mapKeys (List.zip news xs) = news := by
  induction news generalizing xs with
  | nil => simp [mapKeys]
  | cons n news ih =>
    cases xs with
    | nil => simp at h
    | cons x xs =>
      have := ih xs (by simpa using h)
      simp only [mapKeys] at this
      simp [mapKeys, this]


theorem beforeSleep_late (pre : List Event) (aclID : String) (es : List (String × String))
    (news : List String) (g : Config) (u : List Event)
    (hpq : ∀ e ∈ pre, e.isQuiet = true) :
    rebinds (beforeSleep (pre ++ (installEvents aclID es news ++ (holdEvents g ++ u)))) =
      rebinds (installEvents aclID es news) := by
  rw [beforeSleep_append _ (noSleep_of_quiet hpq),
    beforeSleep_append _ (installEvents_noSleep _ _ _), beforeSleep_holdEvents]
  have hnil : rebinds ([] : List Event) = [] := rfl
  simp [rebinds_append, rebinds_of_quiet hpq, rebinds_info_cons, hnil]

theorem afterSleep_late (pre : List Event) (aclID : String) (es : List (String × String))
    (news : List String) (g : Config) (u : List Event)
    (hpq : ∀ e ∈ pre, e.isQuiet = true) :
    rebinds (afterSleep (pre ++ (installEvents aclID es news ++ (holdEvents g ++ u)))) =
      rebinds u := by
  rw [afterSleep_append _ (noSleep_of_quiet hpq),
    afterSleep_append _ (installEvents_noSleep _ _ _), afterSleep_holdEvents]
  simp [rebinds_info_cons]

theorem rebinds_late (pre : List Event) (aclID : String) (es : List (String × String))
    (news : List String) (g : Config) (u : List Event)
    (hpq : ∀ e ∈ pre, e.isQuiet = true) :
    rebinds (pre ++ (installEvents aclID es news ++ (holdEvents g ++ u))) =
      rebinds (installEvents aclID es news) ++ rebinds u := by
  simp [rebinds_append, rebinds_of_quiet hpq, rebinds_holdEvents]

/-- C9 (identifier freshness): in every run in which each successful rebind
returns an association id that the provider has not issued before, (a) the
association ids passed to `ReplaceNetworkAclAssociation` are pairwise distinct,
so none is passed to a later call (no other provider call takes an association
id); and (b) when the installation completes, `newAclAssociations` consists,
for the entries `(a, acl)` of the checkpoint in iteration order, of exactly
the entries `(a', acl)` with `a'` the id returned by rebinding `a`, none of
its keys is a key of the checkpoint, and every restoration rebind passes a key
of `newAclAssociations` together with the ACL id recorded for it. -/
theorem identifiers_are_fresh {σ : Type} (P : Provider σ) (o : Schedule) (inv : Invocation)
    (s : σ) (hf : freshRebinds [] (main P o inv s).trace) :
    ((rebinds (main P o inv s).trace).map (fun c => c.1)).Nodup ∧
      (sleeps (main P o inv s).trace ≠ [] →
        ∃ (aclID : String) (news : List String),
          (main P o inv s).locals.aclID = some aclID ∧
          news.length =
            (o.install.order (main P o inv s).locals.originAclAssociations).length ∧
          rebinds (beforeSleep (main P o inv s).trace) =
            rebinds (installEvents aclID
              (o.install.order (main P o inv s).locals.originAclAssociations) news) ∧
          (main P o inv s).locals.newAclAssociations =
            List.zip news
              ((o.install.order (main P o inv s).locals.originAclAssociations).map Prod.snd) ∧
          (∀ k ∈ mapKeys (main P o inv s).locals.newAclAssociations,
            k ∉ mapKeys (main P o inv s).locals.originAclAssociations) ∧
          (∀ c ∈ rebinds (afterSleep (main P o inv s).trace),
            (c.1, c.2.1) ∈ (main P o inv s).locals.newAclAssociations)) := by
  rcases main_cases P o inv s with ⟨hq, _⟩ |
    ⟨subnets, s1, aclID, pre, hds, hd, hpre, horig, hacl, hc⟩
  · refine ⟨by simp [rebinds_of_quiet hq], fun h => absurd (sleeps_of_quiet hq) h⟩
  · have hpq : ∀ e ∈ pre, e.isQuiet = true := by
      rw [hpre]
      exact preamble_quiet _ _ _ _ (discoverLoop_quiet _ _ _ _ _)
    have hnd : (mapKeys (main P o inv s).locals.originAclAssociations).Nodup := by
      rw [horig, discoverLoop_vars]
      exact checkpoint_nodup _ [] (by simp [mapKeys])
    have hkeys : ∀ k ∈ mapKeys (main P o inv s).locals.originAclAssociations,
        k ∈ pre.flatMap Event.issued := by
      intro k hk
      rw [horig, discoverLoop_vars, checkpoint_keys] at hk
      rcases hk with hk | ⟨ass, hass, rfl⟩
      · simp [mapKeys] at hk
      · have := issued_of_discovered hass
        rw [hpre]
        simp only [preamble, List.flatMap_cons, List.flatMap_append, List.mem_append]
        exact Or.inr (Or.inr (Or.inl this))
    have hes : ((o.install.order (main P o inv s).locals.originAclAssociations).map
        Prod.fst).Nodup :=
      ((o.install.perm _).map Prod.fst).nodup_iff.2 hnd
    have hesk : ∀ k ∈ (o.install.order (main P o inv s).locals.originAclAssociations).map
        Prod.fst, k ∈ pre.flatMap Event.issued := fun k hk =>
      hkeys k (((o.install.perm _).map Prod.fst).mem_iff.1 hk)
    rcases hc with ⟨done, a, x, rest, news, err, hsplit, hl, ht, ho, hn⟩ | ⟨news, hl, hn, hc⟩
    · refine ⟨?_, fun h => ?_⟩
      · rw [ht]
        simp only [rebinds_append, rebinds_of_quiet hpq, rebinds_failedRebind, List.nil_append,
          List.map_append, map_fst_rebinds_installEvents aclID done news hl, List.map_cons,
          List.map_nil]
        rw [hsplit] at hes
        refine List.Nodup.sublist ?_ hes
        simp only [List.map_append, List.map_cons]
        exact List.Sublist.append_left (List.singleton_sublist.2 (by simp)) _
      · exfalso
        apply h
        rw [ht]
        simp [sleeps_append, sleeps_of_quiet hpq, sleeps_installEvents, sleeps_failedRebind]
    · -- the installation completed
      have key : ∀ u : List Event,
          (main P o inv s).trace = pre ++ (installEvents aclID
            (o.install.order (main P o inv s).locals.originAclAssociations) news ++
            (holdEvents (flagParse inv) ++ u)) →
          ((rebinds u).map (fun c => c.1)).Sublist
            ((o.restore.order (main P o inv s).locals.newAclAssociations).map Prod.fst) →
          (∀ c ∈ rebinds u, (c.1, c.2.1) ∈
            o.restore.order (main P o inv s).locals.newAclAssociations) →
          ((rebinds (main P o inv s).trace).map (fun c => c.1)).Nodup ∧
          (sleeps (main P o inv s).trace ≠ [] →
            ∃ (aclID : String) (news : List String),
              (main P o inv s).locals.aclID = some aclID ∧
              news.length =
                (o.install.order (main P o inv s).locals.originAclAssociations).length ∧
              rebinds (beforeSleep (main P o inv s).trace) =
                rebinds (installEvents aclID
                  (o.install.order (main P o inv s).locals.originAclAssociations) news) ∧
              (main P o inv s).locals.newAclAssociations =
                List.zip news
                  ((o.install.order
                    (main P o inv s).locals.originAclAssociations).map Prod.snd) ∧
              (∀ k ∈ mapKeys (main P o inv s).locals.newAclAssociations,
                k ∉ mapKeys (main P o inv s).locals.originAclAssociations) ∧
              (∀ c ∈ rebinds (afterSleep (main P o inv s).trace),
                (c.1, c.2.1) ∈ (main P o inv s).locals.newAclAssociations)) := by
        intro u ht hsub hmem
        have hf' := hf
        rw [ht, freshRebinds_append_of_noRebind pre _ _ (rebind_none_of_quiet hpq)] at hf'
        obtain ⟨hnews, hfresh, _⟩ := freshRebinds_installEvents aclID _ _ news _ hl hf'
        simp only [List.nil_append] at hfresh
        have hzip : (main P o inv s).locals.newAclAssociations =
            List.zip news ((o.install.order
              (main P o inv s).locals.originAclAssociations).map Prod.snd) := by
          rw [hn, recorded_eq_zip _ [] news hl hnews (by simp [mapKeys])]
          simp
        have hnewkeys : mapKeys (main P o inv s).locals.newAclAssociations = news := by
          rw [hzip]
          exact mapKeys_zip _ _ (by simp [hl])
        have hrk : ∀ k ∈ (o.restore.order (main P o inv s).locals.newAclAssociations).map
            Prod.fst, k ∈ news := by
          intro k hk
          have := ((o.restore.perm _).map Prod.fst).mem_iff.1 hk
          rwa [← hnewkeys]
        have hrnd : ((o.restore.order (main P o inv s).locals.newAclAssociations).map
            Prod.fst).Nodup := by
          refine ((o.restore.perm _).map Prod.fst).nodup_iff.2 ?_
          have : (mapKeys (main P o inv s).locals.newAclAssociations).Nodup := by
            rw [hnewkeys]
            exact hnews
          exact this
        refine ⟨?_, fun _ => ⟨aclID, news, hacl, hl, ?_, hzip, ?_, ?_⟩⟩
        · rw [ht, rebinds_late _ _ _ _ _ _ hpq, List.map_append,
            map_fst_rebinds_installEvents aclID _ news hl, List.nodup_append]
          refine ⟨hes, List.Nodup.sublist hsub hrnd, ?_⟩
          intro k hk1 hk2
          exact hfresh k (hrk k (hsub.subset hk2)) (hesk k hk1)
        · rw [ht, beforeSleep_late _ _ _ _ _ _ hpq]
        · intro k hk hk'
          rw [hnewkeys] at hk
          exact hfresh k hk (hkeys k hk')
        · intro c hc
          rw [ht, afterSleep_late _ _ _ _ _ _ hpq] at hc
          exact (o.restore.perm _).mem_iff.1 (hmem c hc)
      rcases hc with ⟨done, a, x, rest, news', err, hsplit, hl', ht, ho⟩ |
        ⟨news', reply, hl', ht, ho⟩
      · refine key _ ht ?_ ?_
        · rw [rebinds_append, rebinds_failedRebind, List.map_append,
            map_fst_rebinds_restoreEvents done news' hl', hsplit]
          simp only [List.map_append, List.map_cons, List.map_nil]
          exact List.Sublist.append_left (List.singleton_sublist.2 (by simp)) _
        · intro c hc
          rw [rebinds_append, rebinds_failedRebind, List.mem_append] at hc
          rw [hsplit]
          rcases hc with hc | hc
          · exact List.mem_append_left _ (mem_rebinds_restoreEvents hc)
          · simp only [List.mem_singleton] at hc
            subst hc
            simp
      · refine key _ ht ?_ ?_
        · rw [rebinds_append, rebinds_cleanupEvents, List.append_nil,
            map_fst_rebinds_restoreEvents _ news' hl']
        · intro c hc
          rw [rebinds_append, rebinds_cleanupEvents, List.append_nil] at hc
          exact mem_rebinds_restoreEvents hc

set_option maxRecDepth 100000 in
/-- Witness for C9: the scenario of the specification, where the provider
issues a fresh id at every rebind. -/
theorem identifiers_are_fresh_witness :
    ((rebinds (main cloud inOrder (invoke (some 0)) scenario).trace).map
        (fun c => c.1)).Nodup ∧
      (sleeps (main cloud inOrder (invoke (some 0)) scenario).trace ≠ [] →
        ∃ (aclID : String) (news : List String),
          (main cloud inOrder (invoke (some 0)) scenario).locals.aclID = some aclID ∧
          news.length = (inOrder.install.order
            (main cloud inOrder (invoke (some 0)) scenario).locals.originAclAssociations).length ∧
          rebinds (beforeSleep (main cloud inOrder (invoke (some 0)) scenario).trace) =
            rebinds (installEvents aclID (inOrder.install.order
              (main cloud inOrder (invoke (some 0)) scenario).locals.originAclAssociations)
              news) ∧
          (main cloud inOrder (invoke (some 0)) scenario).locals.newAclAssociations =
            List.zip news ((inOrder.install.order
              (main cloud inOrder (invoke (some 0))
                scenario).locals.originAclAssociations).map Prod.snd) ∧
          (∀ k ∈ mapKeys (main cloud inOrder (invoke (some 0))
              scenario).locals.newAclAssociations,
            k ∉ mapKeys (main cloud inOrder (invoke (some 0))
              scenario).locals.originAclAssociations) ∧
          (∀ c ∈ rebinds (afterSleep (main cloud inOrder (invoke (some 0)) scenario).trace),
            (c.1, c.2.1) ∈ (main cloud inOrder (invoke (some 0))
              scenario).locals.newAclAssociations)) :=
  identifiers_are_fresh cloud inOrder (invoke (some 0)) scenario (by decide)


/-! ### The binding-state provider -/

theorem length_le_foldr_max (used : List String) :
    ∀ u ∈ used, u.length ≤ (used.map String.length).foldr max 0 := by
  induction used with
  | nil => intro u hu; simp at hu
  | cons v used ih =>
    intro u hu
    simp only [List.mem_cons] at hu
    simp only [List.map_cons, List.foldr_cons]
    rcases hu with rfl | hu
    · exact le_max_left _ _
    · exact le_trans (ih u hu) (le_max_right _ _)

theorem freshId_not_mem (used : List String) : freshId used ∉ used := by
  intro h
  have := length_le_foldr_max used _ h
  simp [freshId, String.length] at this

theorem forall₂_map_right_of_mem {α β : Type} {R R' : α → β → Prop} {f : β → β} :
    ∀ {l₁ : List α} {l₂ : List β}, List.Forall₂ R l₁ l₂ →
      (∀ a b, b ∈ l₂ → R a b → R' a (f b)) → List.Forall₂ R' l₁ (l₂.map f) := by
  intro l₁ l₂ h
  induction h with
  | nil => intro _; exact List.Forall₂.nil
  | cons hab _ ih =>
    intro hf
    exact List.Forall₂.cons (hf _ _ (by simp) hab)
      (ih (fun a b hb hr => hf a b (by simp [hb]) hr))

theorem forall₂_exists_left {α β : Type} {R : α → β → Prop} :
    ∀ {l₁ : List α} {l₂ : List β}, List.Forall₂ R l₁ l₂ → ∀ b ∈ l₂, ∃ a ∈ l₁, R a b := by
  intro l₁ l₂ h
  induction h with
  | nil => intro b hb; simp at hb
  | cons hab _ ih =>
    intro b hb
    simp only [List.mem_cons] at hb
    rcases hb with rfl | hb
    · exact ⟨_, by simp, hab⟩
    · obtain ⟨a, ha, hr⟩ := ih b hb
      exact ⟨a, by simp [ha], hr⟩

theorem forall₂_refl_of {α : Type} {R : α → α → Prop} (h : ∀ a, R a a) :
    ∀ l : List α, List.Forall₂ R l l := by
  intro l
  induction l with
  | nil => exact List.Forall₂.nil
  | cons a l ih => exact List.Forall₂.cons (h a) ih

theorem eq_of_id_eq {c : Cloud} (hwf : c.WellFormed) {r r' : NetworkAclAssociation}
    (hr : r ∈ c.associations) (hr' : r' ∈ c.associations)
    (h : r.networkAclAssociationId = r'.networkAclAssociationId) : r = r' :=
  List.inj_on_of_nodup_map hwf hr hr' h

theorem mem_ids {c : Cloud} {a : String} :
    a ∈ c.ids ↔ ∃ r ∈ c.associations, r.networkAclAssociationId = a := by
  simp [Cloud.ids]

theorem ids_subset_names (c : Cloud) : ∀ a ∈ c.ids, a ∈ c.names := by
  intro a ha
  simp only [Cloud.ids] at ha
  simp only [Cloud.names, List.mem_append]
  exact Or.inl (Or.inl (Or.inl (Or.inr ha)))

theorem freshId_not_mem_ids (c : Cloud) : freshId c.names ∉ c.ids :=
  fun h => freshId_not_mem _ (ids_subset_names c _ h)

/-- The state after a rebind of `a` to `acl` in the binding-state provider. -/
theorem replace_cloud (c : Cloud) (a acl : String) (ha : a ∈ c.ids) :
    cloud.replaceNetworkAclAssociation c a acl =
      (Reply.ok (freshId c.names),
        { c with
          associations := c.associations.map (fun r =>
            if r.networkAclAssociationId = a then
              { networkAclAssociationId := freshId c.names
                networkAclId := acl
                subnetId := r.subnetId }
            else r)
          retired := a :: c.retired }) := by
  show Cloud.replaceNetworkAclAssociation c a acl = _
  unfold Cloud.replaceNetworkAclAssociation
  exact if_pos ha

theorem wellFormed_replace (c : Cloud) (a acl : String) (hwf : c.WellFormed) :
    (c.associations.map (fun r =>
      if r.networkAclAssociationId = a then
        ({ networkAclAssociationId := freshId c.names
           networkAclId := acl
           subnetId := r.subnetId } : NetworkAclAssociation)
      else r)).map (fun r => r.networkAclAssociationId) |>.Nodup := by
  rw [List.map_map]
  refine List.Nodup.map_on ?_ (List.Nodup.of_map _ hwf)
  intro r hr r' hr' h
  have hn : ∀ q ∈ c.associations, q.networkAclAssociationId ≠ freshId c.names :=
    fun q hq e => freshId_not_mem_ids c (e ▸ mem_ids.2 ⟨q, hq, rfl⟩)
  simp only [Function.comp] at h
  by_cases h1 : r.networkAclAssociationId = a <;> by_cases h2 : r'.networkAclAssociationId = a
  · exact eq_of_id_eq hwf hr hr' (h1.trans h2.symm)
  · simp only [h1, h2, if_true, if_false] at h
    exact absurd h.symm (hn r' hr')
  · simp only [h1, h2, if_true, if_false] at h
    exact absurd h (hn r hr)
  · simp only [h1, h2, if_false] at h
    exact eq_of_id_eq hwf hr hr' h


/-- The provider state after a rebind of `a` to `acl`. -/
theorem rebound_eq (c : Cloud) (a acl : String) (ha : a ∈ c.ids) :
    (cloud.replaceNetworkAclAssociation c a acl).2.associations =
        c.associations.map (fun r =>
          if r.networkAclAssociationId = a then
            { networkAclAssociationId := freshId c.names
              networkAclId := acl
              subnetId := r.subnetId }
          else r) ∧
      (cloud.replaceNetworkAclAssociation c a acl).1 = Reply.ok (freshId c.names) ∧
      (cloud.replaceNetworkAclAssociation c a acl).2.subnets = c.subnets ∧
      (cloud.replaceNetworkAclAssociation c a acl).2.acls = c.acls ∧
      (cloud.replaceNetworkAclAssociation c a acl).2.entries = c.entries := by
  rw [replace_cloud c a acl ha]
  exact ⟨rfl, rfl, rfl, rfl, rfl⟩

theorem installLoop_cons_cloud (N a x : String) (rest : List (String × String)) (m : GoMap)
    (c : Cloud) (ha : a ∈ c.ids) :
    installLoop cloud N ((a, x) :: rest) m c =
      (installLoop cloud N rest (mapSet m (freshId c.names) x)
        (cloud.replaceNetworkAclAssociation c a N).2).after
        (Event.replaceNetworkAclAssociation a N (.ok (freshId c.names))) := by
  rw [installLoop, replace_cloud c a N ha]

theorem restoreLoop_cons_cloud (a x : String) (rest : List (String × String))
    (c : Cloud) (ha : a ∈ c.ids) :
    restoreLoop cloud ((a, x) :: rest) c =
      (restoreLoop cloud rest (cloud.replaceNetworkAclAssociation c a x).2).after
        (Event.replaceNetworkAclAssociation a x (.ok (freshId c.names))) := by
  rw [restoreLoop, replace_cloud c a x ha]

theorem install_cloud (N : String) (L0 : List NetworkAclAssociation) :
    ∀ (es : List (String × String)) (m : GoMap) (c : Cloud),
      c.WellFormed → (es.map Prod.fst).Nodup →
      (∀ p ∈ es, ∃ r ∈ c.associations,
        r.networkAclAssociationId = p.1 ∧ r.networkAclId = p.2) →
      List.Forall₂ (Tracks m) L0 c.associations →
      (mapKeys m).Nodup → (∀ k ∈ mapKeys m, k ∈ c.ids) → (∀ p ∈ es, p.1 ∉ mapKeys m) →
      (installLoop cloud N es m c).err = none ∧
      (installLoop cloud N es m c).state.WellFormed ∧
      List.Forall₂ (Tracks (installLoop cloud N es m c).vars) L0
        (installLoop cloud N es m c).state.associations ∧
      (mapKeys (installLoop cloud N es m c).vars).Nodup ∧
      (∀ k ∈ mapKeys (installLoop cloud N es m c).vars,
        k ∈ (installLoop cloud N es m c).state.ids) ∧
      (installLoop cloud N es m c).state.subnets = c.subnets ∧
      (installLoop cloud N es m c).state.acls = c.acls ∧
      (installLoop cloud N es m c).state.entries = c.entries := by
  intro es
  induction es with
  | nil =>
    intro m c hwf _ _ hT hm hk _
    exact ⟨rfl, hwf, hT, hm, hk, rfl, rfl, rfl⟩
  | cons p rest ih =>
    obtain ⟨a, x⟩ := p
    intro m c hwf hnd hvalid hT hm hk hnot
    obtain ⟨ra, hra, hraid, hraacl⟩ := hvalid (a, x) (by simp)
    simp only at hraid hraacl
    have ha : a ∈ c.ids := mem_ids.2 ⟨ra, hra, hraid⟩
    have hfresh : freshId c.names ∉ c.ids := freshId_not_mem_ids c
    have hnm : freshId c.names ∉ mapKeys m := fun h => hfresh (hk _ h)
    have ham : a ∉ mapKeys m := hnot (a, x) (by simp)
    obtain ⟨hassoc, _, hsub, hacls, hent⟩ := rebound_eq c a N ha
    simp only [List.map_cons, List.nodup_cons] at hnd
    rw [installLoop_cons_cloud N a x rest m c ha]
    simp only [Stage.after]
    have hstep := ih (mapSet m (freshId c.names) x) (cloud.replaceNetworkAclAssociation c a N).2
      (by
        show ((cloud.replaceNetworkAclAssociation c a N).2.associations.map _).Nodup
        rw [hassoc]
        exact wellFormed_replace c a N hwf)
      hnd.2
      (by
        intro p hp
        obtain ⟨r, hr, hrid, hracl⟩ := hvalid p (by simp [hp])
        refine ⟨r, ?_, hrid, hracl⟩
        rw [hassoc, List.mem_map]
        refine ⟨r, hr, ?_⟩
        have : r.networkAclAssociationId ≠ a := by
          rw [hrid]
          rintro rfl
          exact hnd.1 (List.mem_map_of_mem Prod.fst hp)
        simp [this])
      (by
        rw [hassoc]
        refine forall₂_map_right_of_mem hT ?_
        intro r0 r hr hTr
        obtain ⟨hs, hcase⟩ := hTr
        by_cases hra' : r.networkAclAssociationId = a
        · simp only [hra', if_true]
          have hrr : r = ra := eq_of_id_eq hwf hr hra (hra'.trans hraid.symm)
          refine ⟨hs, Or.inl ?_⟩
          rcases hcase with hc | ⟨_, hc⟩
          · exact absurd (List.mem_map_of_mem Prod.fst hc) (hra' ▸ ham)
          · rw [mapSet_of_not_mem m _ _ hnm]
            simp only [List.mem_append, List.mem_singleton, Prod.mk.injEq, true_and]
            right
            rw [← hc, hrr, hraacl]
        · simp only [hra', if_false]
          refine ⟨hs, ?_⟩
          rcases hcase with hc | ⟨hc1, hc2⟩
          · left
            rw [mapSet_of_not_mem m _ _ hnm]
            exact List.mem_append_left _ hc
          · right
            refine ⟨?_, hc2⟩
            rw [mem_mapKeys_mapSet]
            rintro (h | h)
            · exact hfresh (h ▸ mem_ids.2 ⟨r, hr, rfl⟩)
            · exact hc1 h)
      (nodup_mapSet m _ _ hm)
      (by
        intro k hk'
        rw [mem_mapKeys_mapSet] at hk'
        rw [mem_ids, hassoc]
        rcases hk' with rfl | hk'
        · exact ⟨_, List.mem_map_of_mem _ hra, by simp [hraid]⟩
        · obtain ⟨r, hr, hrid⟩ := mem_ids.1 (hk k hk')
          have : r.networkAclAssociationId ≠ a := by
            rw [hrid]
            rintro rfl
            exact ham hk'
          exact ⟨r, List.mem_map.2 ⟨r, hr, by simp [this]⟩, hrid⟩)
      (by
        intro p hp
        rw [mem_mapKeys_mapSet]
        rintro (h | h)
        · obtain ⟨r, hr, hrid, _⟩ := hvalid p (by simp [hp])
          exact hfresh (h ▸ mem_ids.2 ⟨r, hr, hrid⟩)
        · exact hnot p (by simp [hp]) h)
    obtain ⟨h1, h2, h3, h4, h5, h6, h7, h8⟩ := hstep
    exact ⟨h1, h2, h3, h4, h5, h6.trans hsub, h7.trans hacls, h8.trans hent⟩

theorem restore_cloud (L0 : List NetworkAclAssociation) :
    ∀ (es : List (String × String)) (c : Cloud),
      c.WellFormed → (es.map Prod.fst).Nodup → (∀ k ∈ es.map Prod.fst, k ∈ c.ids) →
      List.Forall₂ (Tracks es) L0 c.associations →
      (restoreLoop cloud es c).err = none ∧
      (restoreLoop cloud es c).state.WellFormed ∧
      List.Forall₂ (Tracks []) L0 (restoreLoop cloud es c).state.associations ∧
      (restoreLoop cloud es c).state.subnets = c.subnets ∧
      (restoreLoop cloud es c).state.acls = c.acls ∧
      (restoreLoop cloud es c).state.entries = c.entries := by
  intro es
  induction es with
  | nil =>
    intro c hwf _ _ hT
    exact ⟨rfl, hwf, hT, rfl, rfl, rfl⟩
  | cons p rest ih =>
    obtain ⟨a, x⟩ := p
    intro c hwf hnd hk hT
    have ha : a ∈ c.ids := hk a (by simp)
    have hfresh : freshId c.names ∉ c.ids := freshId_not_mem_ids c
    obtain ⟨hassoc, _, hsub, hacls, hent⟩ := rebound_eq c a x ha
    simp only [List.map_cons, List.nodup_cons] at hnd
    rw [restoreLoop_cons_cloud a x rest c ha]
    simp only [Stage.after]
    have hstep := ih (cloud.replaceNetworkAclAssociation c a x).2
      (by
        show ((cloud.replaceNetworkAclAssociation c a x).2.associations.map _).Nodup
        rw [hassoc]
        exact wellFormed_replace c a x hwf)
      hnd.2
      (by
        intro k hk'
        obtain ⟨r, hr, hrid⟩ := mem_ids.1 (hk k (by simp [hk']))
        have : r.networkAclAssociationId ≠ a := by
          rw [hrid]
          rintro rfl
          exact hnd.1 hk'
        rw [mem_ids, hassoc]
        exact ⟨r, List.mem_map.2 ⟨r, hr, by simp [this]⟩, hrid⟩)
      (by
        rw [hassoc]
        refine forall₂_map_right_of_mem hT ?_
        intro r0 r hr hTr
        obtain ⟨hs, hcase⟩ := hTr
        by_cases hra' : r.networkAclAssociationId = a
        · simp only [hra', if_true]
          refine ⟨hs, Or.inr ⟨?_, ?_⟩⟩
          · intro h
            exact hfresh (hk _ (by
              simp only [mapKeys] at h
              simp [h]))
          · rcases hcase with hc | ⟨hc, _⟩
            · rw [hra'] at hc
              simp only [List.mem_cons, Prod.mk.injEq, true_and] at hc
              rcases hc with hc | hc
              · exact hc.symm
              · exact absurd (List.mem_map_of_mem Prod.fst hc) hnd.1
            · exact absurd (by simp [mapKeys, hra']) hc
        · simp only [hra', if_false]
          refine ⟨hs, ?_⟩
          rcases hcase with hc | ⟨hc1, hc2⟩
          · left
            simp only [List.mem_cons, Prod.mk.injEq] at hc
            rcases hc with ⟨h, _⟩ | hc
            · exact absurd h hra'
            · exact hc
          · right
            refine ⟨fun h => hc1 ?_, hc2⟩
            simp only [mapKeys, List.map_cons, List.mem_cons] at h ⊢
            exact Or.inr h)
    obtain ⟨h1, h2, h3, h4, h5, h6⟩ := hstep
    exact ⟨h1, h2, h3, h4.trans hsub, h5.trans hacls, h6.trans hent⟩


theorem installLoop_trace_ok {σ : Type} (P : Provider σ) (aclID : String)
    (es : List (String × String)) (m : GoMap) (s : σ)
    (h : (installLoop P aclID es m s).err = none) :
    ∀ e ∈ (installLoop P aclID es m s).trace, e.failed = false := by
  rcases installLoop_anatomy P aclID es m s with ⟨news, _, _, ht, _⟩ |
    ⟨_, _, _, _, _, err, _, _, he, _, _⟩
  · rw [ht]
    intro e he
    obtain ⟨_, _, _, _, _, rfl⟩ := installEvents_mem he
    rfl
  · rw [h] at he
    cases he

theorem restoreLoop_trace_ok {σ : Type} (P : Provider σ)
    (es : List (String × String)) (s : σ)
    (h : (restoreLoop P es s).err = none) :
    ∀ e ∈ (restoreLoop P es s).trace, e.failed = false := by
  rcases restoreLoop_anatomy P es s with ⟨news, _, _, ht⟩ |
    ⟨_, _, _, _, _, err, _, _, he, _⟩
  · rw [ht]
    intro e he
    obtain ⟨_, _, _, _, _, rfl⟩ := restoreEvents_mem he
    rfl
  · rw [h] at he
    cases he

theorem discover_cloud (vpcID : String) :
    ∀ (subnets : List Subnet) (m : GoMap) (c : Cloud),
      (discoverLoop cloud vpcID subnets m c).err = none ∧
      (discoverLoop cloud vpcID subnets m c).state = c ∧
      (∀ e ∈ (discoverLoop cloud vpcID subnets m c).trace, e.failed = false) ∧
      (∀ ass ∈ discovered (discoverLoop cloud vpcID subnets m c).trace,
        ass ∈ c.associations) := by
  intro subnets
  induction subnets with
  | nil =>
    intro m c
    exact ⟨rfl, rfl, by simp [discoverLoop], by simp [discoverLoop, discovered]⟩
  | cons sn rest ih =>
    intro m c
    have hstep : discoverLoop cloud vpcID (sn :: rest) m c =
        (discoverLoop cloud vpcID rest
          (recordAssociations sn.subnetId (c.aclsOf vpcID sn.subnetId) m) c).after
          (Event.describeNetworkAcls vpcID sn.subnetId (.ok (c.aclsOf vpcID sn.subnetId))) := by
      rw [discoverLoop]
      rfl
    obtain ⟨h1, h2, h3, h4⟩ := ih (recordAssociations sn.subnetId (c.aclsOf vpcID sn.subnetId) m) c
    rw [hstep]
    refine ⟨h1, h2, ?_, ?_⟩
    · intro e he
      simp only [Stage.after, List.mem_cons] at he
      rcases he with rfl | he
      · rfl
      · exact h3 e he
    · intro ass hass
      simp only [Stage.after, discovered, List.flatMap_cons, List.mem_append] at hass
      rcases hass with hass | hass
      · simp only [Event.matching, Cloud.aclsOf, List.mem_filter, List.mem_flatMap,
          List.mem_map] at hass
        obtain ⟨⟨acl, ⟨a, _, rfl⟩, hmem⟩, _⟩ := hass
        exact (List.mem_filter.1 hmem).1
      · exact h4 ass hass

theorem cleanup_cloud (N : String) (loc : Locals) (c : Cloud)
    (hN : N ∈ c.acls.map Prod.fst) (hfree : ∀ r ∈ c.associations, r.networkAclId ≠ N) :
    cleanup cloud N loc c =
      ⟨[Event.info "recovery acl associations successful" [],
          Event.deleteNetworkAcl N (.ok ()),
          Event.info "recovery network acl successful" []],
        Outcome.returned,
        { c with
          acls := c.acls.filter (fun a => a.1 ≠ N)
          entries := c.entries.filter (fun e => e.networkAclId ≠ N)
          retired := N :: c.retired },
        loc⟩ := by
  have h : cloud.deleteNetworkAcl c N =
      (Reply.ok (),
        { c with
          acls := c.acls.filter (fun a => a.1 ≠ N)
          entries := c.entries.filter (fun e => e.networkAclId ≠ N)
          retired := N :: c.retired }) := by
    show Cloud.deleteNetworkAcl c N = _
    unfold Cloud.deleteNetworkAcl
    rw [if_pos hN, if_pos]
    simpa using hfree
  rw [cleanup, h]

theorem tracks_nil_binding {L0 L : List NetworkAclAssociation}
    (h : List.Forall₂ (Tracks []) L0 L) : L.map binding = L0.map binding := by
  induction h with
  | nil => rfl
  | cons hab _ ih =>
    obtain ⟨hs, hc⟩ := hab
    rcases hc with hc | ⟨_, hc⟩
    · simp at hc
    · simp [binding, hs, hc, ih]

theorem bound_iff_mem_binding (c : Cloud) (subnet acl : String) :
    c.Bound subnet acl ↔ (subnet, acl) ∈ c.associations.map binding := by
  simp only [Cloud.Bound, List.mem_map, binding, Prod.mk.injEq]

theorem mem_names_of_acl {c : Cloud} {r : NetworkAclAssociation} (h : r ∈ c.associations) :
    r.networkAclId ∈ c.names := by
  simp only [Cloud.names, List.mem_append]
  exact Or.inl (Or.inl (Or.inr (List.mem_map_of_mem _ h)))

theorem mem_names_of_aclId {c : Cloud} {a : String} (h : a ∈ c.acls.map Prod.fst) :
    a ∈ c.names := by
  simp only [Cloud.names, List.mem_append]
  exact Or.inl (Or.inl (Or.inl (Or.inl (Or.inl (Or.inr h)))))

theorem mem_names_of_entry {c : Cloud} {e : CreateNetworkAclEntryInput}
    (h : e ∈ c.entries) : e.networkAclId ∈ c.names := by
  simp only [Cloud.names, List.mem_append]
  exact Or.inl (Or.inl (Or.inl (Or.inl (Or.inr (List.mem_map_of_mem _ h)))))


theorem installAndRecover_cloud (o : Schedule) (g : Config) (N : String) (origin : GoMap)
    (c : Cloud) (hwf : c.WellFormed) (hnd : (mapKeys origin).Nodup)
    (hvalid : ∀ p ∈ origin, ∃ r ∈ c.associations,
      r.networkAclAssociationId = p.1 ∧ r.networkAclId = p.2)
    (hN : N ∈ c.acls.map Prod.fst) (hfree : ∀ r ∈ c.associations, r.networkAclId ≠ N) :
    (installAndRecover cloud o g N origin c).outcome = Outcome.returned ∧
    (∀ e ∈ (installAndRecover cloud o g N origin c).trace, e.failed = false) ∧
    (installAndRecover cloud o g N origin c).final.associations.map binding
      = c.associations.map binding ∧
    (installAndRecover cloud o g N origin c).final.subnets = c.subnets ∧
    (installAndRecover cloud o g N origin c).final.acls = c.acls.filter (fun a => a.1 ≠ N) ∧
    (installAndRecover cloud o g N origin c).final.entries
      = c.entries.filter (fun e => e.networkAclId ≠ N) ∧
    (installAndRecover cloud o g N origin c).locals.aclID = some N ∧
    Event.deleteNetworkAcl N (.ok ()) ∈ (installAndRecover cloud o g N origin c).trace := by
  -- the installation loop
  obtain ⟨hi1, hi2, hi3, hi4, hi5, hi6, hi7, hi8⟩ :=
    install_cloud N c.associations (o.install.order origin) [] c hwf
      (((o.install.perm origin).map Prod.fst).nodup_iff.2 hnd)
      (fun p hp => hvalid p ((o.install.perm origin).mem_iff.1 hp))
      (forall₂_refl_of (fun r => ⟨rfl, Or.inr ⟨by simp [mapKeys], rfl⟩⟩) _)
      (by simp [mapKeys]) (by simp [mapKeys]) (by simp [mapKeys])
  have hit := installLoop_trace_ok cloud N (o.install.order origin) [] c hi1
  generalize hidef : installLoop cloud N (o.install.order origin) [] c = i
    at hi1 hi2 hi3 hi4 hi5 hi6 hi7 hi8 hit
  -- the restoration loop
  have hperm := o.restore.perm i.vars
  obtain ⟨hr1, hr2, hr3, hr4, hr5, hr6⟩ :=
    restore_cloud c.associations (o.restore.order i.vars) i.state hi2
      ((hperm.map Prod.fst).nodup_iff.2 hi4)
      (fun k hk => hi5 k ((hperm.map Prod.fst).mem_iff.1 hk))
      (hi3.imp (fun r0 r h => ⟨h.1, h.2.imp (fun h' => hperm.mem_iff.2 h')
        (fun h' => ⟨fun hk => h'.1 ((hperm.map Prod.fst).mem_iff.1 hk), h'.2⟩)⟩))
  have hrt := restoreLoop_trace_ok cloud (o.restore.order i.vars) i.state hr1
  generalize hrdef : restoreLoop cloud (o.restore.order i.vars) i.state = r
    at hr1 hr2 hr3 hr4 hr5 hr6 hrt
  -- clean-up
  have hbind := tracks_nil_binding hr3
  have hfree' : ∀ q ∈ r.state.associations, q.networkAclId ≠ N := by
    intro q hq
    obtain ⟨q0, hq0, hT⟩ := forall₂_exists_left hr3 q hq
    rcases hT.2 with h | ⟨_, h⟩
    · simp at h
    · rw [h]
      exact hfree q0 hq0
  have hN' : N ∈ r.state.acls.map Prod.fst := by
    rw [hr5, hi7]
    exact hN
  have hclean := cleanup_cloud N ⟨origin, some N, i.vars⟩ r.state hN' hfree'
  have hrun : installAndRecover cloud o g N origin c =
      (cleanup cloud N ⟨origin, some N, i.vars⟩ r.state).after
        (i.trace ++
          [Event.info "inject availability zone network partition successful" [],
            Event.info "sleep" [.duration "durtion" g.duration],
            Event.sleep (sleepArg g.duration)] ++
          (Event.info "start recovery error injection" [] :: r.trace)) := by
    unfold installAndRecover
    simp only [hidef, hi1]
    unfold recover
    simp only [hrdef, hr1]
    simp [Run.after]
  rw [hrun, hclean]
  refine ⟨rfl, ?_, hbind, ?_, ?_, ?_, rfl, ?_⟩
  · intro e he
    simp only [Run.after, List.mem_append, List.mem_cons, List.not_mem_nil, or_false] at he
    rcases he with ((he | rfl | rfl | rfl) | rfl | he) | rfl | rfl | rfl
    · exact hit e he
    · rfl
    · rfl
    · rfl
    · rfl
    · exact hrt e he
    · rfl
    · rfl
    · rfl
  · simp only [Run.after]
    rw [hr4, hi6]
  · simp only [Run.after]
    rw [hr5, hi7]
  · simp only [Run.after]
    rw [hr6, hi8]
  · simp [Run.after]


theorem createAndInject_cloud (o : Schedule) (g : Config) (origin : GoMap)
    (c : Cloud) (hwf : c.WellFormed) (hnd : (mapKeys origin).Nodup)
    (hvalid : ∀ p ∈ origin, ∃ r ∈ c.associations,
      r.networkAclAssociationId = p.1 ∧ r.networkAclId = p.2) :
    (createAndInject cloud o g origin c).outcome = Outcome.returned ∧
    (∀ e ∈ (createAndInject cloud o g origin c).trace, e.failed = false) ∧
    (createAndInject cloud o g origin c).final.associations.map binding
      = c.associations.map binding ∧
    (createAndInject cloud o g origin c).final.subnets = c.subnets ∧
    (createAndInject cloud o g origin c).final.acls = c.acls ∧
    (createAndInject cloud o g origin c).final.entries = c.entries ∧
    (createAndInject cloud o g origin c).locals.aclID = some (freshId c.names) ∧
    Event.deleteNetworkAcl (freshId c.names) (.ok ()) ∈
      (createAndInject cloud o g origin c).trace := by
  have hN := freshId_not_mem c.names
  generalize hNdef : freshId c.names = N at hN
  have hcreate : cloud.createNetworkAcl c g.vpcID =
      (Reply.ok N, { c with acls := c.acls ++ [(N, g.vpcID)] }) := by
    rw [← hNdef]
    rfl
  have hent1 : cloud.createNetworkAclEntry { c with acls := c.acls ++ [(N, g.vpcID)] }
      (engress N) =
      (Reply.ok (), { c with acls := c.acls ++ [(N, g.vpcID)],
                             entries := c.entries ++ [engress N] }) := by
    show Cloud.createNetworkAclEntry _ _ = _
    unfold Cloud.createNetworkAclEntry
    rw [if_pos (by simp [engress])]
  have hent2 : cloud.createNetworkAclEntry
      { c with acls := c.acls ++ [(N, g.vpcID)], entries := c.entries ++ [engress N] }
      (ingress N) =
      (Reply.ok (), { c with acls := c.acls ++ [(N, g.vpcID)],
                             entries := c.entries ++ [engress N] ++ [ingress N] }) := by
    show Cloud.createNetworkAclEntry _ _ = _
    unfold Cloud.createNetworkAclEntry
    rw [if_pos (by simp [ingress])]
  have hrun : createAndInject cloud o g origin c =
      (installAndRecover cloud o g N origin
        { c with acls := c.acls ++ [(N, g.vpcID)],
                 entries := c.entries ++ [engress N] ++ [ingress N] }).after
        (ruleEvents g origin N) := by
    unfold createAndInject
    simp only [hcreate, hent1, hent2]
    rfl
  obtain ⟨h1, h2, h3, h4, h5, h6, h7, h8⟩ := installAndRecover_cloud o g N origin
    { c with acls := c.acls ++ [(N, g.vpcID)],
             entries := c.entries ++ [engress N] ++ [ingress N] }
    hwf hnd hvalid (by simp)
    (fun r hr e => hN (e ▸ mem_names_of_acl hr))
  rw [hrun]
  refine ⟨h1, ?_, h3, h4, ?_, ?_, h7, ?_⟩
  · intro e he
    simp only [Run.after, ruleEvents, List.mem_append, List.mem_cons, List.not_mem_nil,
      or_false] at he
    rcases he with (rfl | rfl | rfl | rfl | rfl) | he
    · rfl
    · rfl
    · rfl
    · rfl
    · rfl
    · exact h2 e he
  · show (installAndRecover cloud o g N origin _).final.acls = c.acls
    rw [h5]
    simp only [List.filter_append, List.filter_cons, List.filter_nil]
    simp only [ne_eq, not_true_eq_false, decide_False, Bool.false_eq_true, if_false,
      List.append_nil]
    rw [List.filter_eq_self]
    intro a ha
    simp only [ne_eq, decide_eq_true_eq]
    rintro rfl
    exact hN (mem_names_of_aclId (List.mem_map_of_mem Prod.fst ha))
  · show (installAndRecover cloud o g N origin _).final.entries = c.entries
    rw [h6]
    simp only [List.filter_append, List.filter_cons, List.filter_nil]
    have e1 : (engress N).networkAclId = N := rfl
    have e2 : (ingress N).networkAclId = N := rfl
    simp only [e1, e2, ne_eq, not_true_eq_false, decide_False, Bool.false_eq_true, if_false,
      List.append_nil]
    rw [List.filter_eq_self]
    intro a ha
    simp only [ne_eq, decide_eq_true_eq]
    intro h
    exact hN (h ▸ mem_names_of_entry ha)
  · simp only [Run.after, List.mem_append]
    exact Or.inr h8

/-- C1 (restore round-trip): against the binding-state provider, from every
state in which association ids identify associations, every provider call of
the run succeeds, the run returns normally when a VPC id and a zone are given,
and after the run every subnet (so every subnet discovered in scope) is bound
to exactly the ACLs it was bound to before the run: the associations bind the
same (subnet, ACL) pairs in the same order, with new association ids.  The
subnets, the ACLs and the rules are as before, so the injected ACL, when one
was created, has been deleted: the `DeleteNetworkAcl` call for it succeeded, it
is not among the ACLs and no association refers to it. -/
theorem restore_round_trip (c : Cloud) (o : Schedule) (inv : Invocation)
    (hwf : c.WellFormed) :
    (∀ e ∈ (main cloud o inv c).trace, e.failed = false) ∧
    ((flagParse inv).vpcID ≠ "" → (flagParse inv).availabilityZone ≠ "" →
      (main cloud o inv c).outcome = Outcome.returned) ∧
    (∀ subnet acl, (main cloud o inv c).final.Bound subnet acl ↔ c.Bound subnet acl) ∧
    (main cloud o inv c).final.associations.map binding = c.associations.map binding ∧
    (main cloud o inv c).final.subnets = c.subnets ∧
    (main cloud o inv c).final.acls = c.acls ∧
    (main cloud o inv c).final.entries = c.entries ∧
    (∀ aclID, (main cloud o inv c).locals.aclID = some aclID →
      Event.deleteNetworkAcl aclID (.ok ()) ∈ (main cloud o inv c).trace ∧
      aclID ∉ (main cloud o inv c).final.acls.map Prod.fst ∧
      ∀ r ∈ (main cloud o inv c).final.associations, r.networkAclId ≠ aclID) := by
  have core :
      (∀ e ∈ (main cloud o inv c).trace, e.failed = false) ∧
      ((flagParse inv).vpcID ≠ "" → (flagParse inv).availabilityZone ≠ "" →
        (main cloud o inv c).outcome = Outcome.returned) ∧
      (main cloud o inv c).final.associations.map binding = c.associations.map binding ∧
      (main cloud o inv c).final.subnets = c.subnets ∧
      (main cloud o inv c).final.acls = c.acls ∧
      (main cloud o inv c).final.entries = c.entries ∧
      (∀ aclID, (main cloud o inv c).locals.aclID = some aclID →
        aclID = freshId c.names ∧
        Event.deleteNetworkAcl aclID (.ok ()) ∈ (main cloud o inv c).trace) := by
    unfold main
    simp only
    split
    · rename_i hinv
      exact ⟨by simp, fun hv ha => absurd hinv (by simp [hv, ha]), rfl, rfl, rfl, rfl,
        fun aclID h => by simp at h⟩
    · have hds : cloud.describeSubnets c (flagParse inv).vpcID (flagParse inv).availabilityZone
          = (Reply.ok (c.subnetsIn (flagParse inv).vpcID (flagParse inv).availabilityZone), c) :=
        rfl
      simp only [hds]
      split
      · refine ⟨?_, fun _ _ => rfl, rfl, rfl, rfl, rfl, fun aclID h => by simp at h⟩
        intro e he
        simp only [List.mem_cons, List.mem_singleton, List.not_mem_nil, or_false] at he
        rcases he with rfl | rfl <;> rfl
      · obtain ⟨hd1, hd2, hd3, hd4⟩ := discover_cloud (flagParse inv).vpcID
          (c.subnetsIn (flagParse inv).vpcID (flagParse inv).availabilityZone) [] c
        have hvars := discoverLoop_vars cloud (flagParse inv).vpcID
          (c.subnetsIn (flagParse inv).vpcID (flagParse inv).availabilityZone) [] c
        generalize discoverLoop cloud (flagParse inv).vpcID
          (c.subnetsIn (flagParse inv).vpcID (flagParse inv).availabilityZone) [] c = d
          at hd1 hd2 hd3 hd4 hvars
        simp only [hd1, hd2]
        obtain ⟨h1, h2, h3, h4, h5, h6, h7, h8⟩ := createAndInject_cloud o (flagParse inv)
          d.vars c hwf
          (by rw [hvars]; exact checkpoint_nodup _ [] (by simp [mapKeys]))
          (by
            intro p hp
            rw [hvars] at hp
            rcases checkpoint_sound _ [] p.1 p.2 (by simp [mapKeys]) hp with h | ⟨ass, ha, hb⟩
            · simp at h
            · exact ⟨ass, hd4 ass ha, hb⟩)
        refine ⟨?_, fun _ _ => h1, h3, h4, h5, h6, ?_⟩
        · intro e he
          simp only [Run.after, List.mem_append, List.mem_cons, List.not_mem_nil,
            or_false] at he
          rcases he with ((rfl | rfl) | he) | he
          · rfl
          · rfl
          · exact hd3 e he
          · exact h2 e he
        · intro aclID h
          simp only [Run.after, h7, Option.some.injEq] at h
          subst h
          refine ⟨rfl, ?_⟩
          simp only [Run.after, List.mem_append]
          exact Or.inr h8
  obtain ⟨h1, h2, h3, h4, h5, h6, h7⟩ := core
  refine ⟨h1, h2, ?_, h3, h4, h5, h6, ?_⟩
  · intro subnet acl
    rw [bound_iff_mem_binding, bound_iff_mem_binding, h3]
  · intro aclID h
    obtain ⟨rfl, hdel⟩ := h7 aclID h
    refine ⟨hdel, ?_, ?_⟩
    · rw [h5]
      exact fun hm => freshId_not_mem _ (mem_names_of_aclId hm)
    · intro r hr e
      have : (r.subnetId, r.networkAclId) ∈ (main cloud o inv c).final.associations.map binding :=
        List.mem_map.2 ⟨r, hr, rfl⟩
      rw [h3, List.mem_map] at this
      obtain ⟨r0, hr0, hb⟩ := this
      simp only [binding, Prod.mk.injEq] at hb
      exact freshId_not_mem _ (e ▸ hb.2 ▸ mem_names_of_acl hr0)


set_option maxRecDepth 100000 in
/-- Witness for C1: the scenario of the specification, VPC `v1`, zone `az-1`,
subnets `s1` and `s2` bound to `acl-orig` through `a1` and `a2`, duration 0. -/
theorem restore_round_trip_witness :
    (∀ e ∈ (main cloud inOrder (invoke (some 0)) scenario).trace, e.failed = false) ∧
    ((flagParse (invoke (some 0))).vpcID ≠ "" →
      (flagParse (invoke (some 0))).availabilityZone ≠ "" →
      (main cloud inOrder (invoke (some 0)) scenario).outcome = Outcome.returned) ∧
    (∀ subnet acl, (main cloud inOrder (invoke (some 0)) scenario).final.Bound subnet acl ↔
      scenario.Bound subnet acl) ∧
    (main cloud inOrder (invoke (some 0)) scenario).final.associations.map binding
      = scenario.associations.map binding ∧
    (main cloud inOrder (invoke (some 0)) scenario).final.subnets = scenario.subnets ∧
    (main cloud inOrder (invoke (some 0)) scenario).final.acls = scenario.acls ∧
    (main cloud inOrder (invoke (some 0)) scenario).final.entries = scenario.entries ∧
    (∀ aclID, (main cloud inOrder (invoke (some 0)) scenario).locals.aclID = some aclID →
      Event.deleteNetworkAcl aclID (.ok ()) ∈
        (main cloud inOrder (invoke (some 0)) scenario).trace ∧
      aclID ∉ (main cloud inOrder (invoke (some 0)) scenario).final.acls.map Prod.fst ∧
      ∀ r ∈ (main cloud inOrder (invoke (some 0)) scenario).final.associations,
        r.networkAclId ≠ aclID) :=
  restore_round_trip scenario inOrder (invoke (some 0))
    (by unfold Cloud.WellFormed; decide)

set_option maxRecDepth 100000 in
/-- The end-to-end scenario of the specification, evaluated: the two
associations are rebound to the injected ACL and back, the injected ACL is
deleted, and the final state differs from the initial one in the association
ids only (and in the record of retired ids). -/
theorem end_to_end_scenario :
    rebinds (main cloud inOrder (invoke (some 0)) scenario).trace =
        [("a1", "xxxxxxxxx", Reply.ok "xxxxxxxxxx"),
         ("a2", "xxxxxxxxx", Reply.ok "xxxxxxxxxxx"),
         ("xxxxxxxxxx", "acl-orig", Reply.ok "xxxxxxxxxxxx"),
         ("xxxxxxxxxxx", "acl-orig", Reply.ok "xxxxxxxxxxxxx")] ∧
      sleeps (main cloud inOrder (invoke (some 0)) scenario).trace = [0] ∧
      deletions (main cloud inOrder (invoke (some 0)) scenario).trace
        = [("xxxxxxxxx", Reply.ok ())] ∧
      (main cloud inOrder (invoke (some 0)) scenario).outcome = Outcome.returned ∧
      (main cloud inOrder (invoke (some 0)) scenario).final =
        { scenario with
          associations :=
            [⟨"xxxxxxxxxxxx", "acl-orig", "s1"⟩, ⟨"xxxxxxxxxxxxx", "acl-orig", "s2"⟩]
          retired := ["xxxxxxxxx", "xxxxxxxxxxx", "xxxxxxxxxx", "a2", "a1"] } := by
  decide

end ChaosAws
